import Mathlib

/-!
# Drawpile colour palette (`src/client/utils/palette.cpp`)

A shallow embedding of the `Palette` class: the in-memory model with its modification flag,
the GIMP palette reader `Palette::fromFile` and the writer `Palette::save`.

The Qt value types the class is written against are modelled by what the palette code can
observe of them:

* a `QString` is its sequence of characters (a null and an empty string behave alike under
  every operation used here, so both are the empty list);
* a `QColor` is its validity flag together with the values of `red()`, `green()`, `blue()`;
* a `QList<QColor>` is a `List QColor`, with Qt's treatment of out-of-range positions;
* a `QTextStream` opened for reading is the text that has not been read yet; text is decoded
  and encoded character by character.
-/

namespace Drawpile

/-! ## Qt strings -/

/-- A Qt string, as the list of its characters. -/
abbrev QString := List Char

/-- The test `QChar::isSpace()`: the ASCII characters TAB, LF, VT, FF, CR and space, the
controls U+0085 and U+00A0, and the Unicode separators (categories Zs, Zl and Zp). -/
def QChar.isSpace (c : Char) : Bool :=
  let n := c.toNat
  n == 0x20 || (0x09 ≤ n && n ≤ 0x0d) || n == 0x85 || n == 0xa0 || n == 0x1680 ||
    (0x2000 ≤ n && n ≤ 0x200a) || n == 0x2028 || n == 0x2029 || n == 0x202f ||
    n == 0x205f || n == 0x3000

/-- The method `QString::trimmed()`: the string without the whitespace (in the sense of
`QChar::isSpace`) at its start and at its end. -/
def QString.trimmed (s : QString) : QString :=
  ((s.dropWhile QChar.isSpace).reverse.dropWhile QChar.isSpace).reverse

/-- The method `QString::startsWith(s)`. -/
def QString.startsWith (line s : QString) : Bool :=
  s.isPrefixOf line

/-- The method `QString::mid(position)`: the characters from `position` on. -/
def QString.mid (s : QString) (position : Nat) : QString :=
  s.drop position

/-- The characters matched by `\s` in a `QRegularExpression` built without the Unicode
properties option: space, TAB, LF, VT, FF and CR. -/
def regexSpace (c : Char) : Bool :=
  let n := c.toNat
  n == 0x20 || (0x09 ≤ n && n ≤ 0x0d)

/-- The scan behind `QString::split(QRegularExpression("\\s+"), QString::SkipEmptyParts)`:
`cur` holds, in reverse, the characters read since the last match of the separator. Each
maximal run of `\s` characters is one match; the text between two matches is a part, and an
empty part is dropped. -/
def splitAux : QString → QString → List QString
  | [], cur => if cur.isEmpty then [] else [cur.reverse]
  | c :: cs, cur =>
    if regexSpace c then
      if cur.isEmpty then splitAux cs [] else cur.reverse :: splitAux cs []
    else splitAux cs (c :: cur)

/-- The call `line.split(whitespace, QString::SkipEmptyParts)` with `whitespace` the regular
expression `\s+`. -/
def QString.split (line : QString) : List QString :=
  splitAux line []

/-- The value of a decimal digit character, if it is one. -/
def digitValue (c : Char) : Option Nat :=
  if 48 ≤ c.toNat ∧ c.toNat ≤ 57 then some (c.toNat - 48) else none

/-- The value of a run of decimal digits read left to right, starting from `acc`; `none` as
soon as a character is not a digit. -/
def digitsValue : QString → Nat → Option Nat
  | [], acc => some acc
  | c :: cs, acc =>
    match digitValue c with
    | some d => digitsValue cs (acc * 10 + d)
    | none => none

/-- The value of a non-empty run of decimal digits. -/
def unsignedValue (s : QString) : Option Nat :=
  if s.isEmpty then none else digitsValue s 0

/-- The result of a conversion to `int` from the sign and the magnitude that were read: the
value when it fits 32 bits, and 0 when nothing was read or the value does not fit. -/
def intResult (negative : Bool) (magnitude : Option Nat) : Int :=
  match magnitude with
  | none => 0
  | some n =>
    if negative then (if n ≤ 2147483648 then - (n : Int) else 0)
    else (if n ≤ 2147483647 then (n : Int) else 0)

/-- The method `QString::toInt()` in base 10: whitespace around the number is ignored, then an
optional sign and at least one decimal digit are expected and nothing else; the result is
the value when it fits a 32-bit `int`, and 0 when the conversion fails. -/
def QString.toInt (s : QString) : Int :=
  match QString.trimmed s with
  | [] => 0
  | c :: ds =>
    if c = '-' then intResult true (unsignedValue ds)
    else if c = '+' then intResult false (unsignedValue ds)
    else intResult false (unsignedValue (c :: ds))

/-! ## Qt colours and lists -/

/-- What the palette code observes of a `QColor`: its validity and the values returned by
`red()`, `green()` and `blue()`. -/
structure QColor where
  /-- The result of `isValid()`. -/
  valid : Bool
  /-- The result of `red()`. -/
  red : Nat
  /-- The result of `green()`. -/
  green : Nat
  /-- The result of `blue()`. -/
  blue : Nat
deriving DecidableEq, Repr

/-- The invalid colour, as left by `QColor::invalidate()`: its components read as 0. -/
def QColor.invalid : QColor :=
  { valid := false, red := 0, green := 0, blue := 0 }

/-- The constructor `QColor(int r, int g, int b)`: the colour is left invalid if any of the
arguments is outside the range 0 to 255. -/
def QColor.rgb (r g b : Int) : QColor :=
  if 0 ≤ r ∧ r ≤ 255 ∧ 0 ≤ g ∧ g ≤ 255 ∧ 0 ≤ b ∧ b ≤ 255 then
    { valid := true, red := r.toNat, green := g.toNat, blue := b.toNat }
  else QColor.invalid

/-- The components of a colour as a triple. -/
def QColor.triple (c : QColor) : Nat × Nat × Nat :=
  (c.red, c.green, c.blue)

/-- The method `QList::insert(i, value)`: a position `i ≤ 0` prepends, a position
`i ≥ size()` appends. -/
def QList.insert {α : Type} (l : List α) (i : Int) (value : α) : List α :=
  if i ≤ 0 then value :: l
  else if (l.length : Int) ≤ i then l ++ [value]
  else l.insertIdx i.toNat value

/-- The method `QList::removeAt(i)`: nothing is removed when `i` is not a valid position. -/
def QList.removeAt {α : Type} (l : List α) (i : Int) : List α :=
  if 0 ≤ i ∧ i < (l.length : Int) then l.eraseIdx i.toNat else l

/-- The assignment `list[i] = value`: defined only for a valid position `i`. -/
def QList.assign {α : Type} (l : List α) (i : Int) (value : α) : Option (List α) :=
  if 0 ≤ i ∧ i < (l.length : Int) then some (l.set i.toNat value) else none

/-- The method `QList::at(i)`: defined only for a valid position `i`. -/
def QList.at {α : Type} (l : List α) (i : Int) : Option α :=
  if 0 ≤ i then l.get? i.toNat else none

/-! ## The palette -/

/-- The data members of `Palette`. -/
structure Palette where
  /-- The display name. -/
  name_ : QString
  /-- The suggested file name. -/
  filename_ : QString
  /-- The colours, in order. -/
  colors_ : List QColor
  /-- Whether the palette changed since it was loaded or saved. -/
  modified_ : Bool
deriving DecidableEq, Repr

namespace Palette

/-- The constructor `Palette(name, filename)`; an omitted file name is the empty string. -/
def new (name filename : QString) : Palette :=
  { name_ := name
    filename_ := if filename.isEmpty then name ++ ".gpl".toList else filename
    colors_ := []
    modified_ := false }

/-- The accessor `name()`. -/
def name (p : Palette) : QString := p.name_

/-- The accessor `filename()`. -/
def filename (p : Palette) : QString := p.filename_

/-- The accessor `isModified()`. -/
def isModified (p : Palette) : Bool := p.modified_

/-- The method `setName(name)`. -/
def setName (p : Palette) (name : QString) : Palette :=
  { p with name_ := name, filename_ := name ++ ".gpl".toList }

/-- The method `count()`. -/
def count (p : Palette) : Int := p.colors_.length

/-- The method `color(index)`, defined for `0 ≤ index < count()`. -/
def color (p : Palette) (index : Int) : Option QColor :=
  QList.at p.colors_ index

/-- The method `setColor(index, color)`, defined for `0 ≤ index < count()`. -/
def setColor (p : Palette) (index : Int) (color : QColor) : Option Palette :=
  match QList.assign p.colors_ index color with
  | some cs => some { p with colors_ := cs, modified_ := true }
  | none => none

/-- The method `insertColor(index, color)`. -/
def insertColor (p : Palette) (index : Int) (color : QColor) : Palette :=
  { p with colors_ := QList.insert p.colors_ index color, modified_ := true }

/-- The method `appendColor(color)`. -/
def appendColor (p : Palette) (color : QColor) : Palette :=
  { p with colors_ := p.colors_ ++ [color], modified_ := true }

/-- The method `removeColor(index)`. -/
def removeColor (p : Palette) (index : Int) : Palette :=
  { p with colors_ := QList.removeAt p.colors_ index, modified_ := true }

end Palette

/-! ## Reading -/

/-- A `QTextStream` that is being read: the text not read yet. -/
structure QTextStream where
  /-- The unread text. -/
  buf : QString
deriving DecidableEq, Repr

namespace QTextStream

/-- A stream over a device opened with `QIODevice::Text`: the stream drops every carriage
return of the content, so that lines end with a line feed only. -/
def ofTextDevice (content : QString) : QTextStream :=
  { buf := content.filter (fun c => c != '\r') }

/-- The method `atEnd()`: there is nothing left to read. -/
def atEnd (s : QTextStream) : Bool := s.buf.isEmpty

/-- The method `readLine()`: the text up to the next line feed, which is consumed and not part
of the line, together with the stream after the call. At the end of the stream the line is
the null string. -/
def readLine (s : QTextStream) : QString × QTextStream :=
  (s.buf.takeWhile (fun c => c != '\n'),
    { buf := (s.buf.dropWhile (fun c => c != '\n')).drop 1 })

end QTextStream

/-- What `fromFile` sees of a `QFileInfo`. -/
structure QFileInfo where
  /-- The result of `fileName()`: the name of the file without its path. -/
  fileName : QString
  /-- The content of the file at `absoluteFilePath()`, when there is a readable file. -/
  content : Option QString
deriving DecidableEq, Repr

/-- The call `QFile::open(QIODevice::ReadOnly | QIODevice::Text)`: it gives access to the
content of a readable file. A path whose file name part is empty is the empty path or names
a directory, and is not opened. -/
def QFile.openRead (file : QFileInfo) : Option QString :=
  if file.fileName.isEmpty then none else file.content

namespace Palette

/-- The body of the `while` loop of `fromFile` up to the call of `insertColor`: the colour
that the line makes the loop insert, or `none` when the iteration ends with `continue`. -/
def lineColor (line : QString) : Option QColor :=
  if line.isEmpty || line.head? == some '#' then none
  else
    let tokens := QString.split line
    if tokens.length < 3 then none
    else
      some (QColor.rgb (QString.toInt (tokens.getD 0 [])) (QString.toInt (tokens.getD 1 []))
        (QString.toInt (tokens.getD 2 [])))

/-- The `while (!in.atEnd())` loop of `fromFile`, with `index` the local counter and a bound
`fuel` on the number of iterations. -/
def readColors : Nat → QTextStream → Palette → Int → Palette
  | 0, _, pal, _ => pal
  | fuel + 1, s, pal, index =>
    if s.atEnd then pal
    else
      match lineColor s.readLine.1 with
      | none => readColors fuel s.readLine.2 pal index
      | some color => readColors fuel s.readLine.2 (pal.insertColor index color) (index + 1)

/-- The body of `fromFile` once the file is open: `s` is the stream over the file and
`fileName` the value of `file.fileName()`. A null pointer result is `none`. The loop gets one
iteration per unread character, which is more than it can use. -/
def fromStream (s : QTextStream) (fileName : QString) : Option Palette :=
  if s.readLine.1 ≠ "GIMP Palette".toList then none
  else
    let line := s.readLine.2.readLine.1
    let s2 := s.readLine.2.readLine.2
    if QString.startsWith line "Name:".toList then
      let pal := Palette.new (QString.trimmed (QString.mid line 5)) fileName
      let pal := readColors s2.buf.length s2 pal 0
      some { pal with modified_ := false }
    else none

/-- The function `Palette::fromFile(file)`. -/
def fromFile (file : QFileInfo) : Option Palette :=
  match QFile.openRead file with
  | none => none
  | some content => fromStream (QTextStream.ofTextDevice content) file.fileName

/-! ## Writing -/

/-- The output operator `out << n` for an `int` that is not negative. -/
def writeInt (out : QString) (n : Nat) : QString :=
  out ++ Nat.toDigits 10 n

/-- The body of the `foreach` loop of `save`: one colour written to `out`. -/
def writeColor (out : QString) (color : QColor) : QString :=
  writeInt (writeInt (writeInt out color.red ++ [' ']) color.green ++ [' ']) color.blue
    ++ "\tUntitled\n".toList

/-- Everything `save` sends to the output stream. -/
def saveText (p : Palette) : QString :=
  p.colors_.foldl writeColor ("GIMP Palette\nName: ".toList ++ p.name_ ++ "\n#\n".toList)

/-- The outcome of `save`: the returned flag, the palette afterwards and, when the file was
opened, the content it was given. -/
structure SaveResult where
  /-- The value returned by `save`. -/
  ok : Bool
  /-- The palette after the call. -/
  palette : Palette
  /-- The new content of the file, if it was opened. -/
  written : Option QString
deriving DecidableEq, Repr

/-- The method `save(filename)`; `opened` is the result of
`data.open(QFile::WriteOnly | QFile::Truncate)`. -/
def save (p : Palette) (opened : Bool) : SaveResult :=
  if opened then
    { ok := true, palette := { p with modified_ := false }, written := some (saveText p) }
  else { ok := false, palette := p, written := none }

end Palette

/-! ## Notions used to state the properties -/

/-- The lines of a text, in the order in which successive calls of `readLine` return them
until `atEnd()` holds: a line ends at a line feed or at the end of the text. -/
def textLines : QString → List QString
  | [] => []
  | c :: cs =>
    if c = '\n' then [] :: textLines cs
    else
      match textLines cs with
      | [] => [[c]]
      | l :: ls => (c :: l) :: ls

/-- A character of the class `[A-Za-z0-9 _-]`. -/
def nameChar (c : Char) : Bool :=
  let n := c.toNat
  (48 ≤ n && n ≤ 57) || (65 ≤ n && n ≤ 90) || (97 ≤ n && n ≤ 122) ||
    n == 32 || n == 95 || n == 45

/-- A decimal digit, `0` to `9`. -/
def decimalDigit (c : Char) : Bool :=
  48 ≤ c.toNat && c.toNat ≤ 57

/-- The number written by a run of decimal digits. -/
def decimalValue (ds : QString) : Nat :=
  ds.foldl (fun acc c => acc * 10 + (c.toNat - 48)) 0

/-- The digits of a token once an optional sign is put aside. -/
def unsignedPart (t : QString) : QString :=
  match t with
  | [] => []
  | c :: ds => if c = '-' ∨ c = '+' then ds else c :: ds

/-- A base-10 integer: an optional sign followed by one or more decimal digits. -/
def isDecimalInteger (t : QString) : Bool :=
  !(unsignedPart t).isEmpty && (unsignedPart t).all decimalDigit

/-- The integer written by a base-10 integer token. -/
def decimalInteger (t : QString) : Int :=
  if t.head? = some '-' then - (decimalValue (unsignedPart t) : Int)
  else (decimalValue (unsignedPart t) : Int)

/-- The line that `save` writes for a colour, without its line feed. -/
def writtenLine (c : QColor) : QString :=
  Nat.toDigits 10 c.red ++ ' ' :: (Nat.toDigits 10 c.green ++
    ' ' :: (Nat.toDigits 10 c.blue ++ '\t' :: "Untitled".toList))

/-- The palette obtained from the empty palette named `name` by appending the colours `cs`
one after the other. -/
def appendAll (name : QString) (cs : List QColor) : Palette :=
  cs.foldl Palette.appendColor (Palette.new name [])

/-- The palette file given as an example of the format: a comment, two colours with a
label, a comment and a colour without label. -/
def exampleText : QString :=
  "GIMP Palette\nName: Test\n#\n255 0 0\tRed\n  0  255   0  Green\n# comment\n0 0 255\n".toList

/-- The palette that the example file stands for, loaded from a file named `test.gpl`. -/
def examplePalette : Palette :=
  { name_ := "Test".toList
    filename_ := "test.gpl".toList
    colors_ := [QColor.rgb 255 0 0, QColor.rgb 0 255 0, QColor.rgb 0 0 255]
    modified_ := false }


/-! ## The default palette -/

/-- The call `qRound(x)` for a fraction `x = num / den` that is not negative: the integer
nearest to `x`. -/
def roundFraction (num den : Nat) : Nat :=
  (2 * num + den) / (2 * den)

/-- The function `QColor::fromHsv(h, s, v)` of Qt, seen through `red()`, `green()` and
`blue()`. Qt keeps hue, saturation and value as 16-bit numbers (`hue * 100`, `s * 0x101`,
`v * 0x101`) and the accessors convert with `toRgb()`, whose sector `i`, fraction `f` and
intermediate values `p`, `q`, `t` are followed here; each component is rounded to 16 bits
and its high byte is returned. Qt computes with `double`, here the same formulas are
evaluated exactly. -/
def QColor.fromHsv (h s v : Int) : QColor :=
  if ((h < 0 ∨ 360 ≤ h) ∧ h ≠ -1) ∨ s < 0 ∨ 255 < s ∨ v < 0 ∨ 255 < v then QColor.invalid
  else
    let hue : Nat := if h = -1 then 65535 else (h.toNat % 360) * 100
    let sat : Nat := s.toNat * 257
    let val : Nat := v.toNat * 257
    if sat = 0 ∨ hue = 65535 then
      { valid := true, red := val / 256, green := val / 256, blue := val / 256 }
    else
      let i := hue / 6000
      let f := hue % 6000
      let p := roundFraction (val * (65535 - sat)) 65535
      let q := roundFraction (val * (65535 * 6000 - sat * f)) (65535 * 6000)
      let t := roundFraction (val * (65535 * 6000 - sat * (6000 - f))) (65535 * 6000)
      match i with
      | 0 => { valid := true, red := val / 256, green := t / 256, blue := p / 256 }
      | 1 => { valid := true, red := q / 256, green := val / 256, blue := p / 256 }
      | 2 => { valid := true, red := p / 256, green := val / 256, blue := t / 256 }
      | 3 => { valid := true, red := p / 256, green := q / 256, blue := val / 256 }
      | 4 => { valid := true, red := t / 256, green := p / 256, blue := val / 256 }
      | _ => { valid := true, red := val / 256, green := p / 256, blue := q / 256 }

namespace Palette

/-- The inner loop `for(int value=255;value>=15;value-=16)` of `makeDefaultPalette`, entered
with the current `value` and a bound `fuel` on the number of iterations; `fromHsv` stands
for `QColor::fromHsv`. -/
def valueLoop (fromHsv : Int → Int → Int → QColor) (hue : Int) : Nat → Int → Palette → Palette
  | 0, _, pal => pal
  | fuel + 1, value, pal =>
    if 15 ≤ value then
      valueLoop fromHsv hue fuel (value - 16) (pal.appendColor (fromHsv hue 255 value))
    else pal

/-- The outer loop `for(int hue=0;hue<352;hue+=16)` of `makeDefaultPalette`, entered with the
current `hue` and a bound `fuel` on the number of iterations. -/
def hueLoop (fromHsv : Int → Int → Int → QColor) : Nat → Int → Palette → Palette
  | 0, _, pal => pal
  | fuel + 1, hue, pal =>
    if hue < 352 then hueLoop fromHsv fuel (hue + 16) (valueLoop fromHsv hue 256 255 pal)
    else pal

/-- The function `Palette::makeDefaultPalette()`. What it takes from Qt is given to it:
`fromHsv` is `QColor::fromHsv` and `defaultName` is the value of
`QApplication::tr("Default")`. The bounds 352 and 256 on the iterations of the two loops are
more than the loops use. -/
def makeDefaultPalette (fromHsv : Int → Int → Int → QColor) (defaultName : QString) : Palette :=
  hueLoop fromHsv 352 0 (Palette.new defaultName [])

end Palette

/-! ## Auxiliary lemmas -/

/-! ### Writing and the read loop -/

theorem writeColor_eq (out : QString) (c : QColor) :
    Palette.writeColor out c =
      out ++ (Nat.toDigits 10 c.red ++ [' '] ++ Nat.toDigits 10 c.green ++ [' '] ++
        Nat.toDigits 10 c.blue ++ "\tUntitled\n".toList) := by
  simp [Palette.writeColor, Palette.writeInt, List.append_assoc]

theorem foldl_writeColor (cs : List QColor) (out : QString) :
    cs.foldl Palette.writeColor out =
      out ++ (cs.map (fun c => Nat.toDigits 10 c.red ++ [' '] ++ Nat.toDigits 10 c.green ++
        [' '] ++ Nat.toDigits 10 c.blue ++ "\tUntitled\n".toList)).flatten := by
  induction cs generalizing out with
  | nil => simp
  | cons c cs ih => rw [List.foldl_cons, ih, writeColor_eq]; simp [List.append_assoc]

theorem readColors_name (fuel : Nat) (s : QTextStream) (pal : Palette) (index : Int) :
    (Palette.readColors fuel s pal index).name_ = pal.name_ ∧
      (Palette.readColors fuel s pal index).filename_ = pal.filename_ := by
  induction fuel generalizing s pal index with
  | zero => exact ⟨rfl, rfl⟩
  | succ n ih =>
    simp only [Palette.readColors]
    split
    · exact ⟨rfl, rfl⟩
    · split
      · exact ih _ _ _
      · exact ih _ _ _

theorem readLine_atEnd (s : QTextStream) (h : s.atEnd = true) : s.readLine.1 = [] := by
  have hb : s.buf = [] := by simpa [QTextStream.atEnd] using h
  simp [QTextStream.readLine, hb]

theorem fromStream_some (s : QTextStream) (fileName : QString) (p : Palette)
    (h : Palette.fromStream s fileName = some p) :
    s.readLine.1 = "GIMP Palette".toList ∧
      QString.startsWith s.readLine.2.readLine.1 "Name:".toList = true ∧
      p = { Palette.readColors s.readLine.2.readLine.2.buf.length s.readLine.2.readLine.2
              (Palette.new (QString.trimmed (QString.mid s.readLine.2.readLine.1 5)) fileName) 0
            with modified_ := false } := by
  unfold Palette.fromStream at h
  dsimp only at h
  by_cases h1 : s.readLine.1 = "GIMP Palette".toList
  · rw [if_neg (fun h => h h1)] at h
    by_cases h2 : QString.startsWith s.readLine.2.readLine.1 "Name:".toList = true
    · rw [if_pos h2] at h
      exact ⟨h1, h2, (Option.some.inj h).symm⟩
    · rw [if_neg h2] at h
      cases h
  · rw [if_pos h1] at h
    cases h

theorem fromStream_eq_some (s : QTextStream) (fileName : QString)
    (h1 : s.readLine.1 = "GIMP Palette".toList)
    (h2 : QString.startsWith s.readLine.2.readLine.1 "Name:".toList = true) :
    Palette.fromStream s fileName =
      some { Palette.readColors s.readLine.2.readLine.2.buf.length s.readLine.2.readLine.2
              (Palette.new (QString.trimmed (QString.mid s.readLine.2.readLine.1 5)) fileName) 0
            with modified_ := false } := by
  unfold Palette.fromStream
  dsimp only
  rw [if_neg (fun h => h h1), if_pos h2]


theorem textLines_readLine (buf : QString) (h : buf ≠ []) :
    textLines buf = buf.takeWhile (fun c => c != '\n') ::
      textLines ((buf.dropWhile (fun c => c != '\n')).drop 1) := by
  induction buf with
  | nil => exact absurd rfl h
  | cons c cs ih =>
    by_cases hc : c = '\n'
    · subst hc
      simp [textLines, List.takeWhile, List.dropWhile]
    · have hb : (c != '\n') = true := by simpa using hc
      simp only [textLines, if_neg hc, List.takeWhile, List.dropWhile, hb]
      cases cs with
      | nil => simp [textLines]
      | cons d ds =>
        rw [ih (List.cons_ne_nil d ds)]

theorem readLine_length (s : QTextStream) (h : s.atEnd = false) :
    s.readLine.2.buf.length < s.buf.length := by
  have hb : s.buf ≠ [] := by
    intro h0
    simp [QTextStream.atEnd, h0] at h
  have hpos : 0 < s.buf.length := List.length_pos.mpr hb
  have hle : (s.buf.dropWhile (fun c => c != '\n')).length ≤ s.buf.length :=
    (List.dropWhile_sublist _).length_le
  simp only [QTextStream.readLine, List.length_drop]
  omega

theorem insert_at_length {α : Type} (l : List α) (x : α) :
    QList.insert l (l.length : Int) x = l ++ [x] := by
  unfold QList.insert
  by_cases h : (l.length : Int) ≤ 0
  · have h0 : l.length = 0 := by omega
    have hl : l = [] := List.length_eq_zero.mp h0
    subst hl
    simp
  · rw [if_neg h, if_pos (le_refl _)]

theorem readColors_colors (fuel : Nat) (s : QTextStream) (pal : Palette) (index : Int)
    (hfuel : s.buf.length ≤ fuel) (hidx : index = (pal.colors_.length : Int)) :
    (Palette.readColors fuel s pal index).colors_ =
      pal.colors_ ++ (textLines s.buf).filterMap Palette.lineColor := by
  induction fuel generalizing s pal index with
  | zero =>
    have hb : s.buf = [] := List.length_eq_zero.mp (Nat.le_zero.mp hfuel)
    simp [Palette.readColors, hb, textLines]
  | succ n ih =>
    simp only [Palette.readColors]
    cases hend : s.atEnd with
    | true =>
      have hb : s.buf = [] := by simpa [QTextStream.atEnd] using hend
      simp [hb, textLines]
    | false =>
      have hb : s.buf ≠ [] := by
        intro h0
        simp [QTextStream.atEnd, h0] at hend
      have hlen := readLine_length s hend
      have hlines : textLines s.buf = s.readLine.1 :: textLines s.readLine.2.buf :=
        textLines_readLine s.buf hb
      rw [hlines]
      simp only [Bool.false_eq_true, if_false]
      cases hc : Palette.lineColor s.readLine.1 with
      | none =>
        simp only [List.filterMap_cons, hc]
        exact ih _ _ _ (by omega) hidx
      | some color =>
        simp only [List.filterMap_cons, hc]
        rw [ih _ _ _ (by omega) (by simp [Palette.insertColor, hidx, insert_at_length])]
        simp [Palette.insertColor, hidx, insert_at_length]


/-! ### Decimal digits -/

theorem digitValue_digitChar (d : Nat) (h : d < 10) : digitValue (Nat.digitChar d) = some d := by
  interval_cases d <;> rfl

theorem decimalDigit_digitChar (d : Nat) (h : d < 10) : decimalDigit (Nat.digitChar d) = true := by
  interval_cases d <;> rfl

theorem digitsValue_append (pre rest : QString) (acc : Nat) :
    digitsValue (pre ++ rest) acc = (digitsValue pre acc).bind (fun a => digitsValue rest a) := by
  induction pre generalizing acc with
  | nil => rfl
  | cons c cs ih =>
    simp only [List.cons_append, digitsValue]
    cases digitValue c with
    | none => rfl
    | some d => exact ih _

theorem toDigitsCore_spec (fuel n : Nat) (ds : List Char) (h : n < fuel) :
    ∃ pre, Nat.toDigitsCore 10 fuel n ds = pre ++ ds ∧ pre ≠ [] ∧
      (∀ c ∈ pre, decimalDigit c = true) ∧
      ∀ acc, digitsValue pre acc = some (acc * 10 ^ pre.length + n) := by
  induction fuel generalizing n ds with
  | zero => omega
  | succ fuel ih =>
    unfold Nat.toDigitsCore
    dsimp only
    by_cases h0 : n / 10 = 0
    · rw [if_pos h0]
      have hn : n < 10 := by omega
      have hmod : n % 10 = n := Nat.mod_eq_of_lt hn
      refine ⟨[Nat.digitChar (n % 10)], rfl, by simp, ?_, ?_⟩
      · intro c hc
        rw [List.mem_singleton] at hc
        rw [hc]
        exact decimalDigit_digitChar _ (by omega)
      · intro acc
        rw [hmod]
        simp only [digitsValue, digitValue_digitChar _ hn, List.length_singleton, pow_one]
    · rw [if_neg h0]
      obtain ⟨pre, hpre, hne, hdig, hval⟩ := ih (n / 10) (Nat.digitChar (n % 10) :: ds) (by omega)
      refine ⟨pre ++ [Nat.digitChar (n % 10)], by rw [hpre]; simp, by simp, ?_, ?_⟩
      · intro c hc
        rcases List.mem_append.mp hc with hc | hc
        · exact hdig c hc
        · rw [List.mem_singleton] at hc
          rw [hc]
          exact decimalDigit_digitChar _ (Nat.mod_lt n (by omega))
      · intro acc
        rw [digitsValue_append, hval]
        simp only [Option.bind, digitsValue, digitValue_digitChar _ (Nat.mod_lt n (by omega)),
          List.length_append, List.length_singleton]
        congr 1
        have hdm := Nat.div_add_mod n 10
        rw [pow_succ, ← Nat.mul_assoc]
        generalize acc * 10 ^ pre.length = x
        omega

theorem toDigits_spec (n : Nat) :
    Nat.toDigits 10 n ≠ [] ∧ (∀ c ∈ Nat.toDigits 10 n, decimalDigit c = true) ∧
      digitsValue (Nat.toDigits 10 n) 0 = some n := by
  obtain ⟨pre, hpre, hne, hdig, hval⟩ := toDigitsCore_spec (n + 1) n [] (Nat.lt_succ_self n)
  have h : Nat.toDigits 10 n = pre := by
    unfold Nat.toDigits
    rw [hpre, List.append_nil]
  rw [h]
  exact ⟨hne, hdig, by rw [hval 0]; simp⟩

/-! ### Character classes -/

theorem decimalDigit_range (c : Char) (h : decimalDigit c = true) :
    48 ≤ c.toNat ∧ c.toNat ≤ 57 := by
  simpa [decimalDigit] using h

theorem decimalDigit_not_regexSpace (c : Char) (h : decimalDigit c = true) :
    regexSpace c = false := by
  have hr := decimalDigit_range c h
  simp only [regexSpace, Bool.or_eq_false_iff, Bool.and_eq_false_iff, beq_eq_false_iff_ne,
    decide_eq_false_iff_not]
  omega

theorem decimalDigit_not_isSpace (c : Char) (h : decimalDigit c = true) :
    QChar.isSpace c = false := by
  have hr := decimalDigit_range c h
  simp only [QChar.isSpace, Bool.or_eq_false_iff, Bool.and_eq_false_iff, beq_eq_false_iff_ne,
    decide_eq_false_iff_not]
  omega

theorem decimalDigit_ne (c d : Char) (h : decimalDigit c = true) (hd : decimalDigit d = false) :
    c ≠ d := by
  intro hcd
  rw [hcd, hd] at h
  cases h

theorem nameChar_ne (c d : Char) (h : nameChar c = true) (hd : nameChar d = false) : c ≠ d := by
  intro hcd
  rw [hcd, hd] at h
  cases h

theorem nameChar_not_isSpace (c : Char) (h : nameChar c = true) (hs : c ≠ ' ') :
    QChar.isSpace c = false := by
  have h32 : c.toNat ≠ 32 := by
    intro h32
    apply hs
    have := Char.ofNat_toNat c
    rw [h32] at this
    exact this.symm
  simp only [nameChar, Bool.or_eq_true, Bool.and_eq_true, beq_iff_eq, decide_eq_true_eq] at h
  simp only [QChar.isSpace, Bool.or_eq_false_iff, Bool.and_eq_false_iff, beq_eq_false_iff_ne,
    decide_eq_false_iff_not]
  omega

/-! ### Lines and tokens -/

theorem takeWhile_dropWhile_append (p : Char → Bool) (l rest : List Char) (x : Char)
    (hl : ∀ c ∈ l, p c = true) (hx : p x = false) :
    (l ++ x :: rest).takeWhile p = l ∧ (l ++ x :: rest).dropWhile p = x :: rest := by
  induction l with
  | nil => simp [List.takeWhile, List.dropWhile, hx]
  | cons c cs ih =>
    have hc : p c = true := hl c (List.mem_cons_self c cs)
    have ih2 := ih (fun d hd => hl d (List.mem_cons_of_mem c hd))
    simp [List.takeWhile, List.dropWhile, hc, ih2.1, ih2.2]

theorem readLine_append (l rest : QString) (hl : ∀ c ∈ l, c ≠ '\n') :
    QTextStream.readLine { buf := l ++ '\n' :: rest } = (l, { buf := rest }) := by
  have h := takeWhile_dropWhile_append (fun c => c != '\n') l rest '\n'
    (fun c hc => by simpa using hl c hc) (by simp)
  simp only [QTextStream.readLine, h.1, h.2, List.drop_succ_cons, List.drop_zero]

theorem textLines_append (l rest : QString) (hl : ∀ c ∈ l, c ≠ '\n') :
    textLines (l ++ '\n' :: rest) = l :: textLines rest := by
  have h := takeWhile_dropWhile_append (fun c => c != '\n') l rest '\n'
    (fun c hc => by simpa using hl c hc) (by simp)
  rw [textLines_readLine _ (by simp), h.1, h.2]
  rfl

theorem splitAux_token (tok rest : QString) (sp : Char) (cur : QString)
    (htok : ∀ c ∈ tok, regexSpace c = false) (hsp : regexSpace sp = true)
    (hne : cur.reverse ++ tok ≠ []) :
    splitAux (tok ++ sp :: rest) cur = (cur.reverse ++ tok) :: splitAux rest [] := by
  induction tok generalizing cur with
  | nil =>
    have hcur : cur ≠ [] := by
      intro h0
      apply hne
      simp [h0]
    have hce : cur.isEmpty = false := by
      cases cur with
      | nil => exact absurd rfl hcur
      | cons a as => rfl
    simp [splitAux, hsp, hce]
  | cons c cs ih =>
    have hc : regexSpace c = false := htok c (List.mem_cons_self c cs)
    have h := ih (c :: cur) (fun d hd => htok d (List.mem_cons_of_mem c hd)) (by simp)
    show splitAux (c :: (cs ++ sp :: rest)) cur = _
    simp only [splitAux, hc, Bool.false_eq_true, if_false]
    rw [h]
    simp

theorem dropWhile_head (p : Char → Bool) (s : QString)
    (h : ∀ c, s.head? = some c → p c = false) : s.dropWhile p = s := by
  cases s with
  | nil => rfl
  | cons c cs =>
    have hc : p c = false := h c rfl
    simp [List.dropWhile, hc]

theorem trimmed_eq_self (s : QString)
    (hh : ∀ c, s.head? = some c → QChar.isSpace c = false)
    (hl : ∀ c, s.getLast? = some c → QChar.isSpace c = false) : QString.trimmed s = s := by
  unfold QString.trimmed
  rw [dropWhile_head _ s hh, dropWhile_head _ s.reverse (by simpa using hl), List.reverse_reverse]

/-! ### Conversion to `int` -/

theorem digitValue_eq (c : Char) :
    digitValue c = if decimalDigit c = true then some (c.toNat - 48) else none := by
  unfold digitValue decimalDigit
  by_cases h : 48 ≤ c.toNat ∧ c.toNat ≤ 57
  · rw [if_pos h, if_pos (by simpa using h)]
  · rw [if_neg h, if_neg (by simpa using h)]

theorem digitsValue_eq (ds : QString) (acc : Nat) :
    digitsValue ds acc =
      if ds.all decimalDigit = true then
        some (ds.foldl (fun a c => a * 10 + (c.toNat - 48)) acc)
      else none := by
  induction ds generalizing acc with
  | nil => rfl
  | cons c cs ih =>
    simp only [digitsValue, digitValue_eq, List.all_cons, List.foldl_cons]
    cases hc : decimalDigit c with
    | false => simp
    | true => simpa using ih _

theorem unsignedValue_eq (ds : QString) :
    unsignedValue ds =
      if (!ds.isEmpty && ds.all decimalDigit) = true then some (decimalValue ds) else none := by
  unfold unsignedValue decimalValue
  cases ds with
  | nil => rfl
  | cons c cs =>
    rw [digitsValue_eq]
    simp

theorem toInt_eq (t : QString) :
    QString.toInt t =
      if isDecimalInteger (QString.trimmed t) = true ∧
          -2147483648 ≤ decimalInteger (QString.trimmed t) ∧
          decimalInteger (QString.trimmed t) ≤ 2147483647 then
        decimalInteger (QString.trimmed t)
      else 0 := by
  unfold QString.toInt
  generalize QString.trimmed t = u
  cases u with
  | nil => simp [isDecimalInteger, unsignedPart]
  | cons c ds =>
    by_cases hm : c = '-'
    · subst hm
      simp only [if_true, isDecimalInteger, unsignedPart, decimalInteger, true_or, List.head?_cons,
        unsignedValue_eq]
      by_cases hd : (!ds.isEmpty && ds.all decimalDigit) = true
      · simp only [hd, if_true, intResult, true_and]
        by_cases hr : decimalValue ds ≤ 2147483648
        · rw [if_pos hr, if_pos (by omega)]
        · rw [if_neg hr, if_neg (by omega)]
      · simp only [hd, if_false, intResult, false_and, Bool.false_eq_true]
    · by_cases hp : c = '+'
      · subst hp
        have hne : ¬ (some '+' = some '-') := by decide
        simp only [if_neg hm, if_true, isDecimalInteger, unsignedPart, decimalInteger, or_true,
          List.head?_cons, unsignedValue_eq, if_neg hne]
        by_cases hd : (!ds.isEmpty && ds.all decimalDigit) = true
        · simp only [hd, if_true, intResult, true_and, Bool.false_eq_true, if_false]
          by_cases hr : decimalValue ds ≤ 2147483647
          · rw [if_pos hr, if_pos (by omega)]
          · rw [if_neg hr, if_neg (by omega)]
        · simp only [hd, if_false, intResult, false_and, Bool.false_eq_true]
      · have hne : ¬ (some c = some '-') := by
          intro h
          exact hm (Option.some.inj h)
        have hor : ¬ (c = '-' ∨ c = '+') := by
          rintro (h | h)
          · exact hm h
          · exact hp h
        simp only [if_neg hm, if_neg hp, isDecimalInteger, unsignedPart, decimalInteger,
          List.head?_cons, unsignedValue_eq, if_neg hne, if_neg hor]
        by_cases hd : (!(c :: ds).isEmpty && (c :: ds).all decimalDigit) = true
        · simp only [hd, if_true, intResult, true_and, Bool.false_eq_true, if_false]
          by_cases hr : decimalValue (c :: ds) ≤ 2147483647
          · rw [if_pos hr, if_pos (by omega)]
          · rw [if_neg hr, if_neg (by omega)]
        · simp only [hd, if_false, intResult, false_and, Bool.false_eq_true]

theorem toInt_toDigits (n : Nat) (h : n ≤ 2147483647) :
    QString.toInt (Nat.toDigits 10 n) = (n : Int) := by
  obtain ⟨hne, hdig, hval⟩ := toDigits_spec n
  have htrim : QString.trimmed (Nat.toDigits 10 n) = Nat.toDigits 10 n := by
    apply trimmed_eq_self
    · intro c hc
      exact decimalDigit_not_isSpace c (hdig c (List.mem_of_mem_head? hc))
    · intro c hc
      exact decimalDigit_not_isSpace c (hdig c (List.mem_of_mem_getLast? hc))
  unfold QString.toInt
  rw [htrim]
  cases hds : Nat.toDigits 10 n with
  | nil => exact absurd hds hne
  | cons c ds =>
    have hc : decimalDigit c = true := hdig c (by rw [hds]; exact List.mem_cons_self c ds)
    have hm : c ≠ '-' := decimalDigit_ne c '-' hc (by decide)
    have hp : c ≠ '+' := decimalDigit_ne c '+' hc (by decide)
    have hu : unsignedValue (c :: ds) = some n := by
      unfold unsignedValue
      rw [← hds]
      simpa [hne] using hval
    simp only [if_neg hm, if_neg hp, hu, intResult, Bool.false_eq_true, if_false, if_pos h]

/-! ### What `save` writes, read back -/

theorem lineColor_written (c : QColor)
    (hc : c.red ≤ 255 ∧ c.green ≤ 255 ∧ c.blue ≤ 255) :
    Palette.lineColor (writtenLine c) =
      some { valid := true, red := c.red, green := c.green, blue := c.blue } := by
  obtain ⟨hr, hg, hb⟩ := hc
  unfold writtenLine
  obtain ⟨hner, hdr, -⟩ := toDigits_spec c.red
  obtain ⟨hneg, hdg, -⟩ := toDigits_spec c.green
  obtain ⟨hneb, hdb, -⟩ := toDigits_spec c.blue
  have hsplit : QString.split (Nat.toDigits 10 c.red ++ ' ' :: (Nat.toDigits 10 c.green ++
        ' ' :: (Nat.toDigits 10 c.blue ++ '\t' :: "Untitled".toList))) =
      [Nat.toDigits 10 c.red, Nat.toDigits 10 c.green, Nat.toDigits 10 c.blue,
        "Untitled".toList] := by
    unfold QString.split
    rw [splitAux_token _ _ ' ' [] (fun d hd => decimalDigit_not_regexSpace d (hdr d hd))
        (by decide) (by simpa using hner),
      splitAux_token _ _ ' ' [] (fun d hd => decimalDigit_not_regexSpace d (hdg d hd))
        (by decide) (by simpa using hneg),
      splitAux_token _ _ '\t' [] (fun d hd => decimalDigit_not_regexSpace d (hdb d hd))
        (by decide) (by simpa using hneb)]
    have hlast : splitAux "Untitled".toList [] = ["Untitled".toList] := by decide
    rw [hlast]
    simp
  have hcond : ((Nat.toDigits 10 c.red ++ ' ' :: (Nat.toDigits 10 c.green ++
        ' ' :: (Nat.toDigits 10 c.blue ++ '\t' :: "Untitled".toList))).isEmpty ||
      (Nat.toDigits 10 c.red ++ ' ' :: (Nat.toDigits 10 c.green ++
        ' ' :: (Nat.toDigits 10 c.blue ++ '\t' :: "Untitled".toList))).head? == some '#') =
      false := by
    cases hds : Nat.toDigits 10 c.red with
    | nil => exact absurd hds hner
    | cons d ds =>
      have hd : decimalDigit d = true := hdr d (by rw [hds]; exact List.mem_cons_self d ds)
      have hne : d ≠ '#' := decimalDigit_ne d '#' hd (by decide)
      simp [hne]
  unfold Palette.lineColor
  rw [hcond]
  simp only [Bool.false_eq_true, if_false, hsplit]
  have hlen : ¬ ([Nat.toDigits 10 c.red, Nat.toDigits 10 c.green, Nat.toDigits 10 c.blue,
      "Untitled".toList].length < 3) := by simp
  rw [if_neg hlen]
  simp only [List.getD_cons_zero, List.getD_cons_succ]
  rw [toInt_toDigits _ (by omega), toInt_toDigits _ (by omega), toInt_toDigits _ (by omega)]
  unfold QColor.rgb
  rw [if_pos (by omega)]
  simp

theorem written_line_no_newline (c : QColor) :
    ∀ x ∈ writtenLine c, x ≠ '\n' ∧ x ≠ '\r' := by
  obtain ⟨-, hdr, -⟩ := toDigits_spec c.red
  obtain ⟨-, hdg, -⟩ := toDigits_spec c.green
  obtain ⟨-, hdb, -⟩ := toDigits_spec c.blue
  have hdig : ∀ x, decimalDigit x = true → x ≠ '\n' ∧ x ≠ '\r' := fun x hx =>
    ⟨decimalDigit_ne x '\n' hx (by decide), decimalDigit_ne x '\r' hx (by decide)⟩
  have hlit : ∀ x ∈ "Untitled".toList, x ≠ '\n' ∧ x ≠ '\r' := by decide
  intro x hx
  unfold writtenLine at hx
  simp only [List.mem_append, List.mem_cons] at hx
  rcases hx with h | h | h | h | h | h | h
  · exact hdig x (hdr x h)
  · rw [h]; decide
  · exact hdig x (hdg x h)
  · rw [h]; decide
  · exact hdig x (hdb x h)
  · rw [h]; decide
  · exact hlit x h

theorem written_body (cs : List QColor) :
    (cs.map (fun c => Nat.toDigits 10 c.red ++ [' '] ++ Nat.toDigits 10 c.green ++
        [' '] ++ Nat.toDigits 10 c.blue ++ "\tUntitled\n".toList)).flatten =
      (cs.map (fun c => writtenLine c ++ ['\n'])).flatten := by
  congr 1
  apply List.map_congr_left
  intro c _
  simp [writtenLine, List.append_assoc]

theorem written_body_lines (cs : List QColor)
    (hcs : ∀ c ∈ cs, c.red ≤ 255 ∧ c.green ≤ 255 ∧ c.blue ≤ 255) :
    (textLines (cs.map (fun c => writtenLine c ++ ['\n'])).flatten).filterMap
        Palette.lineColor =
      cs.map (fun c => { valid := true, red := c.red, green := c.green, blue := c.blue }) := by
  induction cs with
  | nil => rfl
  | cons c cs ih =>
    rw [List.map_cons, List.flatten_cons, List.append_assoc, List.singleton_append,
      textLines_append _ _ (fun x hx => (written_line_no_newline c x hx).1),
      List.filterMap_cons, lineColor_written c (hcs c (List.mem_cons_self c cs))]
    simp only [List.map_cons]
    rw [ih (fun d hd => hcs d (List.mem_cons_of_mem c hd))]

theorem written_body_no_cr (cs : List QColor) :
    ∀ x ∈ (cs.map (fun c => writtenLine c ++ ['\n'])).flatten, x ≠ '\r' := by
  intro x hx
  rw [List.mem_flatten] at hx
  obtain ⟨l, hl, hxl⟩ := hx
  rw [List.mem_map] at hl
  obtain ⟨c, -, rfl⟩ := hl
  rcases List.mem_append.mp hxl with h | h
  · exact (written_line_no_newline c x h).2
  · rw [List.mem_singleton] at h
    rw [h]
    decide

theorem appendAll_fields (n : QString) (cs : List QColor) :
    (appendAll n cs).name_ = n ∧ (appendAll n cs).colors_ = cs := by
  have h : ∀ (l : List QColor) (p : Palette),
      (l.foldl Palette.appendColor p).name_ = p.name_ ∧
        (l.foldl Palette.appendColor p).colors_ = p.colors_ ++ l := by
    intro l
    induction l with
    | nil => intro p; simp
    | cons c l ih =>
      intro p
      rw [List.foldl_cons]
      obtain ⟨h1, h2⟩ := ih (p.appendColor c)
      rw [h1, h2]
      simp [Palette.appendColor]
  have := h cs (Palette.new n [])
  simpa [appendAll, Palette.new] using this

theorem saveText_eq (n : QString) (cs : List QColor) :
    Palette.saveText (appendAll n cs) =
      "GIMP Palette".toList ++ '\n' :: (("Name: ".toList ++ n) ++ '\n' :: ("#".toList ++
        '\n' :: (cs.map (fun c => writtenLine c ++ ['\n'])).flatten)) := by
  unfold Palette.saveText
  rw [foldl_writeColor, (appendAll_fields n cs).1, (appendAll_fields n cs).2, written_body]
  simp [List.append_assoc]

theorem trimmed_space_cons (n : QString) (hn : ∀ c ∈ n, nameChar c = true)
    (hfirst : n.head? ≠ some ' ') (hlast : n.getLast? ≠ some ' ') :
    QString.trimmed (' ' :: n) = n := by
  have hsp : QChar.isSpace ' ' = true := by decide
  have h1 : QString.trimmed (' ' :: n) = QString.trimmed n := by
    unfold QString.trimmed
    rw [List.dropWhile_cons_of_pos hsp]
  rw [h1]
  apply trimmed_eq_self
  · intro c hc
    exact nameChar_not_isSpace c (hn c (List.mem_of_mem_head? hc))
      (fun h => hfirst (by rw [hc, h]))
  · intro c hc
    exact nameChar_not_isSpace c (hn c (List.mem_of_mem_getLast? hc))
      (fun h => hlast (by rw [hc, h]))

/-! ## The claims -/

/-- C1, as amended: for a name made of the characters `[A-Za-z0-9 _-]` that neither begins
nor ends with a space, and colours with components in 0..255 appended to the empty palette,
reading the text that `save` writes succeeds and gives the same name and the same colour
triples in the same order (the same colours when all of them are valid), with the modified
flag cleared. -/
theorem save_fromStream_roundtrip (n : QString) (cs : List QColor) (fileName : QString)
    (hn : ∀ c ∈ n, nameChar c = true)
    (hfirst : n.head? ≠ some ' ') (hlast : n.getLast? ≠ some ' ')
    (hcs : ∀ c ∈ cs, c.red ≤ 255 ∧ c.green ≤ 255 ∧ c.blue ≤ 255) :
    ∃ text q, (Palette.save (appendAll n cs) true).written = some text ∧
      Palette.fromStream (QTextStream.ofTextDevice text) fileName = some q ∧
      q.name = (appendAll n cs).name ∧ q.name = n ∧
      q.colors_.map QColor.triple = (appendAll n cs).colors_.map QColor.triple ∧
      ((∀ c ∈ cs, c.valid = true) → q.colors_ = (appendAll n cs).colors_) ∧
      q.isModified = false := by
  have hn_nl : ∀ c ∈ n, c ≠ '\n' := fun c hc => nameChar_ne c '\n' (hn c hc) (by decide)
  have hn_cr : ∀ c ∈ n, c ≠ '\r' := fun c hc => nameChar_ne c '\r' (hn c hc) (by decide)
  have hlit1 : ∀ x ∈ "GIMP Palette".toList, x ≠ '\n' ∧ x ≠ '\r' := by decide
  have hlit2 : ∀ x ∈ "Name: ".toList, x ≠ '\n' ∧ x ≠ '\r' := by decide
  have hlit3 : ∀ x ∈ "#".toList, x ≠ '\n' ∧ x ≠ '\r' := by decide
  have hline2 : ∀ x ∈ "Name: ".toList ++ n, x ≠ '\n' := by
    intro x hx
    rcases List.mem_append.mp hx with h | h
    · exact (hlit2 x h).1
    · exact hn_nl x h
  obtain ⟨body, hbody⟩ : ∃ body, body = (cs.map (fun c => writtenLine c ++ ['\n'])).flatten :=
    ⟨_, rfl⟩
  have htext : Palette.saveText (appendAll n cs) =
      "GIMP Palette".toList ++ '\n' :: (("Name: ".toList ++ n) ++ '\n' :: ("#".toList ++
        '\n' :: body)) := by
    rw [hbody]
    exact saveText_eq n cs
  have hcr : ∀ x ∈ Palette.saveText (appendAll n cs), x ≠ '\r' := by
    intro x hx
    rw [htext] at hx
    simp only [List.mem_append, List.mem_cons] at hx
    rcases hx with h | h | (h | h) | h | h | h | h
    · exact (hlit1 x h).2
    · rw [h]; decide
    · exact (hlit2 x h).2
    · exact hn_cr x h
    · rw [h]; decide
    · exact (hlit3 x h).2
    · rw [h]; decide
    · rw [hbody] at h
      exact written_body_no_cr cs x h
  have hstream : QTextStream.ofTextDevice (Palette.saveText (appendAll n cs)) =
      { buf := "GIMP Palette".toList ++ '\n' :: (("Name: ".toList ++ n) ++ '\n' ::
        ("#".toList ++ '\n' :: body)) } := by
    unfold QTextStream.ofTextDevice
    rw [List.filter_eq_self.mpr (fun x hx => by simpa using hcr x hx), htext]
  have hr1 := readLine_append "GIMP Palette".toList
    (("Name: ".toList ++ n) ++ '\n' :: ("#".toList ++ '\n' :: body)) (fun x hx => (hlit1 x hx).1)
  have hr2 := readLine_append ("Name: ".toList ++ n) ("#".toList ++ '\n' :: body) hline2
  have h1 : (QTextStream.ofTextDevice (Palette.saveText (appendAll n cs))).readLine.1 =
      "GIMP Palette".toList := by
    rw [hstream, hr1]
  have hs1 : (QTextStream.ofTextDevice (Palette.saveText (appendAll n cs))).readLine.2 =
      { buf := ("Name: ".toList ++ n) ++ '\n' :: ("#".toList ++ '\n' :: body) } := by
    rw [hstream, hr1]
  have hl2 : (QTextStream.ofTextDevice (Palette.saveText (appendAll n cs))).readLine.2.readLine.1 =
      "Name: ".toList ++ n := by
    rw [hs1, hr2]
  have hs2 : (QTextStream.ofTextDevice (Palette.saveText (appendAll n cs))).readLine.2.readLine.2 =
      { buf := "#".toList ++ '\n' :: body } := by
    rw [hs1, hr2]
  have h2 : QString.startsWith
      (QTextStream.ofTextDevice (Palette.saveText (appendAll n cs))).readLine.2.readLine.1
      "Name:".toList = true := by
    rw [hl2]
    rfl
  have hcolors : (Palette.readColors ("#".toList ++ '\n' :: body).length
      { buf := "#".toList ++ '\n' :: body }
      (Palette.new (QString.trimmed (QString.mid ("Name: ".toList ++ n) 5)) fileName) 0).colors_ =
      cs.map (fun c => { valid := true, red := c.red, green := c.green, blue := c.blue }) := by
    rw [readColors_colors _ _ _ _ (le_refl _) (by simp [Palette.new])]
    rw [textLines_append _ _ (fun x hx => (hlit3 x hx).1), List.filterMap_cons]
    have hcomment : Palette.lineColor "#".toList = none := by decide
    rw [hcomment, hbody, written_body_lines cs hcs]
    rfl
  have hnm : (Palette.readColors ("#".toList ++ '\n' :: body).length
      { buf := "#".toList ++ '\n' :: body }
      (Palette.new (QString.trimmed (QString.mid ("Name: ".toList ++ n) 5)) fileName) 0).name_ =
      n := by
    rw [(readColors_name _ _ _ _).1]
    exact trimmed_space_cons n hn hfirst hlast
  have hres := fromStream_eq_some
    (QTextStream.ofTextDevice (Palette.saveText (appendAll n cs))) fileName h1 h2
  rw [hs2, hl2] at hres
  refine ⟨Palette.saveText (appendAll n cs), _, rfl, hres, ?_, ?_, ?_, ?_, rfl⟩
  · rw [Palette.name, Palette.name, (appendAll_fields n cs).1]
    exact hnm
  · exact hnm
  · rw [(appendAll_fields n cs).2]
    show List.map QColor.triple (Palette.readColors _ _ _ 0).colors_ = _
    rw [hcolors, List.map_map]
    rfl
  · intro hvalid
    rw [(appendAll_fields n cs).2]
    show (Palette.readColors _ _ _ 0).colors_ = _
    rw [hcolors]
    conv_rhs => rw [← List.map_id cs]
    apply List.map_congr_left
    intro c hc
    have hv := hvalid c hc
    cases c with
    | mk v r g b =>
      simp only at hv
      rw [hv]
      rfl

/-- Witness for C1, as amended: the palette `My Palette` with the colours (255,0,0) and
(1,2,3), read back under the file name `my.gpl`. -/
theorem save_fromStream_roundtrip_witness :
    ((∀ c ∈ "My Palette".toList, nameChar c = true) ∧
      "My Palette".toList.head? ≠ some ' ' ∧ "My Palette".toList.getLast? ≠ some ' ' ∧
      (∀ c ∈ [QColor.rgb 255 0 0, QColor.rgb 1 2 3],
        c.red ≤ 255 ∧ c.green ≤ 255 ∧ c.blue ≤ 255)) ∧
    ∃ text q,
      (Palette.save (appendAll "My Palette".toList [QColor.rgb 255 0 0, QColor.rgb 1 2 3])
        true).written = some text ∧
      Palette.fromStream (QTextStream.ofTextDevice text) "my.gpl".toList = some q ∧
      q.name = (appendAll "My Palette".toList [QColor.rgb 255 0 0, QColor.rgb 1 2 3]).name ∧
      q.name = "My Palette".toList ∧
      q.colors_.map QColor.triple =
        (appendAll "My Palette".toList
          [QColor.rgb 255 0 0, QColor.rgb 1 2 3]).colors_.map QColor.triple ∧
      ((∀ c ∈ [QColor.rgb 255 0 0, QColor.rgb 1 2 3], c.valid = true) →
        q.colors_ =
          (appendAll "My Palette".toList [QColor.rgb 255 0 0, QColor.rgb 1 2 3]).colors_) ∧
      q.isModified = false :=
  ⟨⟨by decide, by decide, by decide, by decide⟩,
    save_fromStream_roundtrip "My Palette".toList [QColor.rgb 255 0 0, QColor.rgb 1 2 3]
      "my.gpl".toList (by decide) (by decide) (by decide) (by decide)⟩

/-- C1 fails for a name with a space at its start: the palette named ` X` (a space, then `X`),
whose name is made of characters of the class `[A-Za-z0-9 _-]`, is written with the line
`Name:  X`, and reading that text gives the name `X`, which is another name. -/
theorem roundtrip_name_counterexample :
    " X".toList.all nameChar = true ∧
      (Palette.save (appendAll " X".toList [QColor.rgb 1 2 3]) true).written =
        some "GIMP Palette\nName:  X\n#\n1 2 3\tUntitled\n".toList ∧
      (Palette.fromStream
          (QTextStream.ofTextDevice "GIMP Palette\nName:  X\n#\n1 2 3\tUntitled\n".toList)
          "X.gpl".toList).map Palette.name = some "X".toList ∧
      "X".toList ≠ (appendAll " X".toList [QColor.rgb 1 2 3]).name := by
  decide

/-- C2: reading fails exactly when the first line is not `GIMP Palette`, or the second line is
missing or does not begin with `Name:`; in every other case a palette is returned, so that
nothing after the second line can make the reading fail. -/
theorem fromStream_eq_none_iff (s : QTextStream) (fileName : QString) :
    Palette.fromStream s fileName = none ↔
      (s.readLine.1 ≠ "GIMP Palette".toList ∨ s.readLine.2.atEnd = true ∨
        QString.startsWith s.readLine.2.readLine.1 "Name:".toList = false) := by
  unfold Palette.fromStream
  dsimp only
  by_cases h1 : s.readLine.1 = "GIMP Palette".toList
  · rw [if_neg (fun h => h h1)]
    by_cases h2 : QString.startsWith s.readLine.2.readLine.1 "Name:".toList = true
    · rw [if_pos h2]
      have h3 : s.readLine.2.atEnd = false := by
        cases h : s.readLine.2.atEnd with
        | false => rfl
        | true =>
          rw [readLine_atEnd _ h] at h2
          exact absurd h2 (by decide)
      constructor
      · intro h
        cases h
      · rintro (h | h | h)
        · exact absurd h1 h
        · rw [h3] at h
          cases h
        · rw [h2] at h
          cases h
    · rw [if_neg h2]
      exact ⟨fun _ => Or.inr (Or.inr (Bool.eq_false_iff.mpr h2)), fun _ => rfl⟩
  · rw [if_pos h1]
    exact ⟨fun _ => Or.inl h1, fun _ => rfl⟩

/-- C3: when `fromFile` succeeds, the second line of the file is `Name:` followed by some text,
the name of the palette is that text trimmed, its file name is the file name of the
`QFileInfo` given by the caller, and it is not modified. -/
theorem fromFile_name_filename (file : QFileInfo) (p : Palette)
    (h : Palette.fromFile file = some p) :
    ∃ content rest, file.content = some content ∧
      (QTextStream.ofTextDevice content).readLine.2.readLine.1 = "Name:".toList ++ rest ∧
      p.name = QString.trimmed rest ∧ p.filename = file.fileName ∧ p.isModified = false := by
  unfold Palette.fromFile QFile.openRead at h
  by_cases hf : file.fileName.isEmpty = true
  · rw [if_pos hf] at h
    cases h
  · rw [if_neg hf] at h
    cases hc : file.content with
    | none =>
      rw [hc] at h
      cases h
    | some content =>
      rw [hc] at h
      obtain ⟨-, h2, hp⟩ := fromStream_some _ _ _ h
      have hrest : (QTextStream.ofTextDevice content).readLine.2.readLine.1 =
          "Name:".toList ++ ((QTextStream.ofTextDevice content).readLine.2.readLine.1).drop 5 := by
        obtain ⟨t, ht⟩ := List.isPrefixOf_iff_prefix.mp h2
        rw [← ht]
        rfl
      have hn := readColors_name
        ((QTextStream.ofTextDevice content).readLine.2.readLine.2.buf.length)
        (QTextStream.ofTextDevice content).readLine.2.readLine.2
        (Palette.new (QString.trimmed (QString.mid
          (QTextStream.ofTextDevice content).readLine.2.readLine.1 5)) file.fileName) 0
      refine ⟨content, _, rfl, hrest, ?_, ?_, ?_⟩
      · rw [hp]
        exact hn.1
      · rw [hp]
        refine hn.2.trans ?_
        show (if file.fileName.isEmpty = true then _ else file.fileName) = file.fileName
        rw [if_neg hf]
      · rw [hp]
        rfl

/-- Witness for C3: the example file read under the file name `test.gpl`. -/
theorem fromFile_name_filename_witness :
    Palette.fromFile { fileName := "test.gpl".toList, content := some exampleText } =
        some examplePalette ∧
      ∃ content rest,
        (QFileInfo.mk "test.gpl".toList (some exampleText)).content = some content ∧
        (QTextStream.ofTextDevice content).readLine.2.readLine.1 = "Name:".toList ++ rest ∧
        examplePalette.name = QString.trimmed rest ∧
        examplePalette.filename = (QFileInfo.mk "test.gpl".toList (some exampleText)).fileName ∧
        examplePalette.isModified = false :=
  ⟨by decide,
    fromFile_name_filename (QFileInfo.mk "test.gpl".toList (some exampleText)) examplePalette
      (by decide)⟩

/-- C4: when the first two lines are valid, the colours of the palette are, in the order of
the lines, one colour for each later line that is not empty, does not start with `#` and
splits into at least three tokens, made from the first three tokens only; all other lines
give nothing. -/
theorem fromStream_colors (s : QTextStream) (fileName : QString)
    (h1 : s.readLine.1 = "GIMP Palette".toList)
    (h2 : QString.startsWith s.readLine.2.readLine.1 "Name:".toList = true) :
    ∃ p, Palette.fromStream s fileName = some p ∧
      p.colors_ = ((textLines s.buf).drop 2).filterMap (fun line =>
        if line = [] ∨ line.head? = some '#' then none
        else
          match QString.split line with
          | t0 :: t1 :: t2 :: _ =>
            some (QColor.rgb (QString.toInt t0) (QString.toInt t1) (QString.toInt t2))
          | _ => none) := by
  refine ⟨_, fromStream_eq_some s fileName h1 h2, ?_⟩
  have hb1 : s.buf ≠ [] := by
    intro h0
    simp [QTextStream.readLine, h0] at h1
  have hb2 : s.readLine.2.buf ≠ [] := by
    intro h0
    have : s.readLine.2.readLine.1 = [] := readLine_atEnd _ (by simp [QTextStream.atEnd, h0])
    rw [this] at h2
    exact absurd h2 (by decide)
  have hl1 : textLines s.buf = s.readLine.1 :: textLines s.readLine.2.buf :=
    textLines_readLine s.buf hb1
  have hl2 : textLines s.readLine.2.buf =
      s.readLine.2.readLine.1 :: textLines s.readLine.2.readLine.2.buf :=
    textLines_readLine s.readLine.2.buf hb2
  rw [hl1, hl2]
  show (Palette.readColors _ _ _ 0).colors_ = _
  rw [readColors_colors _ _ _ _ (le_refl _) (by simp [Palette.new])]
  simp only [Palette.new, List.nil_append, List.drop_succ_cons, List.drop_zero]
  congr 1
  funext line
  unfold Palette.lineColor
  by_cases hskip : line = [] ∨ line.head? = some '#'
  · rw [if_pos hskip]
    rcases hskip with h | h
    · simp [h]
    · simp [h]
  · rw [if_neg hskip]
    push_neg at hskip
    have hcond : (line.isEmpty || line.head? == some '#') = false := by
      simp [hskip.1, hskip.2]
    simp only [hcond, Bool.false_eq_true, if_false]
    rcases hs : QString.split line with _ | ⟨t0, _ | ⟨t1, _ | ⟨t2, rest⟩⟩⟩ <;> simp

/-- Witness for C4: the example file, whose later lines are a comment, two colours with a
label, a comment and a colour without label. -/
theorem fromStream_colors_witness :
    (QTextStream.ofTextDevice exampleText).readLine.1 = "GIMP Palette".toList ∧
      QString.startsWith (QTextStream.ofTextDevice exampleText).readLine.2.readLine.1
        "Name:".toList = true ∧
      ∃ p, Palette.fromStream (QTextStream.ofTextDevice exampleText) "test.gpl".toList = some p ∧
        p.colors_ = ((textLines (QTextStream.ofTextDevice exampleText).buf).drop 2).filterMap
          (fun line =>
            if line = [] ∨ line.head? = some '#' then none
            else
              match QString.split line with
              | t0 :: t1 :: t2 :: _ =>
                some (QColor.rgb (QString.toInt t0) (QString.toInt t1) (QString.toInt t2))
              | _ => none) :=
  ⟨by decide, by decide,
    fromStream_colors (QTextStream.ofTextDevice exampleText) "test.gpl".toList (by decide)
      (by decide)⟩

/-- C5, as amended: on a colour line the first three tokens are converted by `toInt` and
given to the `QColor` constructor without any clamping. A token that, whitespace around it
apart, is a base-10 integer within the range of a 32-bit `int` gives that integer, and any
other token gives 0. When the three values lie in 0..255 they are the components of the
colour; when one of them lies outside, the colour is the invalid colour, whose components
read 0. So `10 20 300 junk extra` gives the invalid colour and `10 20 30 junk extra` gives
(10,20,30). -/
theorem lineColor_conversion (line t0 t1 t2 : QString) (rest : List QString) (t : QString)
    (r g b : Int) (hne : line ≠ []) (hc : line.head? ≠ some '#')
    (ht : QString.split line = t0 :: t1 :: t2 :: rest) :
    Palette.lineColor line =
        some (QColor.rgb (QString.toInt t0) (QString.toInt t1) (QString.toInt t2)) ∧
      QString.toInt t =
        (if isDecimalInteger (QString.trimmed t) = true ∧
            -2147483648 ≤ decimalInteger (QString.trimmed t) ∧
            decimalInteger (QString.trimmed t) ≤ 2147483647 then
          decimalInteger (QString.trimmed t)
        else 0) ∧
      QColor.rgb r g b =
        (if 0 ≤ r ∧ r ≤ 255 ∧ 0 ≤ g ∧ g ≤ 255 ∧ 0 ≤ b ∧ b ≤ 255 then
          { valid := true, red := r.toNat, green := g.toNat, blue := b.toNat }
        else { valid := false, red := 0, green := 0, blue := 0 }) ∧
      Palette.lineColor "10 20 300 junk extra".toList =
        some { valid := false, red := 0, green := 0, blue := 0 } ∧
      Palette.lineColor "10 20 30 junk extra".toList =
        some { valid := true, red := 10, green := 20, blue := 30 } := by
  refine ⟨?_, toInt_eq t, rfl, by decide, by decide⟩
  unfold Palette.lineColor
  have hcond : (line.isEmpty || line.head? == some '#') = false := by
    cases line with
    | nil => exact absurd rfl hne
    | cons x xs =>
      have hx : x ≠ '#' := fun h => hc (by rw [h]; rfl)
      simp [hx]
  rw [hcond]
  simp only [Bool.false_eq_true, if_false, ht]
  have hlen : ¬ ((t0 :: t1 :: t2 :: rest).length < 3) := by
    simp only [List.length_cons]
    omega
  rw [if_neg hlen]
  rfl

/-- Witness for C5, as amended: the line `10 20 300 junk extra`, the token `300` and the
values 10, 20 and 300. -/
theorem lineColor_conversion_witness :
    ("10 20 300 junk extra".toList ≠ [] ∧
      "10 20 300 junk extra".toList.head? ≠ some '#' ∧
      QString.split "10 20 300 junk extra".toList =
        "10".toList :: "20".toList :: "300".toList :: ["junk".toList, "extra".toList]) ∧
    (Palette.lineColor "10 20 300 junk extra".toList =
        some (QColor.rgb (QString.toInt "10".toList) (QString.toInt "20".toList)
          (QString.toInt "300".toList)) ∧
      QString.toInt "300".toList =
        (if isDecimalInteger (QString.trimmed "300".toList) = true ∧
            -2147483648 ≤ decimalInteger (QString.trimmed "300".toList) ∧
            decimalInteger (QString.trimmed "300".toList) ≤ 2147483647 then
          decimalInteger (QString.trimmed "300".toList)
        else 0) ∧
      QColor.rgb 10 20 300 =
        (if (0 : Int) ≤ 10 ∧ (10 : Int) ≤ 255 ∧ (0 : Int) ≤ 20 ∧ (20 : Int) ≤ 255 ∧
            (0 : Int) ≤ 300 ∧ (300 : Int) ≤ 255 then
          { valid := true, red := (10 : Int).toNat, green := (20 : Int).toNat,
            blue := (300 : Int).toNat }
        else { valid := false, red := 0, green := 0, blue := 0 }) ∧
      Palette.lineColor "10 20 300 junk extra".toList =
        some { valid := false, red := 0, green := 0, blue := 0 } ∧
      Palette.lineColor "10 20 30 junk extra".toList =
        some { valid := true, red := 10, green := 20, blue := 30 }) :=
  ⟨⟨by decide, by decide, by decide⟩,
    lineColor_conversion "10 20 300 junk extra".toList "10".toList "20".toList "300".toList
      ["junk".toList, "extra".toList] "300".toList 10 20 300 (by decide) (by decide)
      (by decide)⟩

/-- C5 fails on the example of the format description: the file with the colour line
`10 20 300 junk extra` is read as one colour, the invalid colour with components (0,0,0),
and not as (10,20,255); the token `300` is converted to 300 and not to 255, a token too
large for an `int` is converted to 0, a negative value makes the colour invalid too, and a
token made of a no-break space and `7`, which is not split and is not an integer, is
converted to 7. -/
theorem lineColor_clamp_counterexample :
    (Palette.fromStream
        (QTextStream.ofTextDevice
          "GIMP Palette\nName:  My Colors  \n10 20 300 junk extra\n".toList)
        "my.gpl".toList).map (fun p => (p.name, p.colors_)) =
        some ("My Colors".toList, [QColor.invalid]) ∧
      QColor.triple QColor.invalid = (0, 0, 0) ∧
      QColor.triple QColor.invalid ≠ (10, 20, 255) ∧
      QString.toInt "300".toList = 300 ∧
      QString.toInt "99999999999".toList = 0 ∧
      Palette.lineColor "-1 20 30".toList = some QColor.invalid ∧
      QString.split [Char.ofNat 160, '7'] = [[Char.ofNat 160, '7']] ∧
      QString.toInt [Char.ofNat 160, '7'] = 7 := by
  decide

/-- C6: a successful `save` writes `GIMP Palette`, the line `Name: ` with the name, the line
`#`, and then for each colour in order one line made of decimal red, a space, decimal green,
a space, decimal blue, a TAB, `Untitled` and a line feed, and nothing else; for the name `X`
and the colours (1,2,3), (4,5,6) this is the text of the example. -/
theorem save_written_text :
    (∀ p : Palette, (Palette.save p true).written =
      some ("GIMP Palette\nName: ".toList ++ p.name_ ++ "\n#\n".toList ++
        (p.colors_.map (fun c => (Nat.repr c.red).toList ++ [' '] ++ (Nat.repr c.green).toList ++
          [' '] ++ (Nat.repr c.blue).toList ++ ['\t'] ++ "Untitled".toList ++ ['\n'])).flatten)) ∧
    (Palette.save
        { name_ := "X".toList, filename_ := "X.gpl".toList,
          colors_ := [QColor.rgb 1 2 3, QColor.rgb 4 5 6], modified_ := true } true).written =
      some "GIMP Palette\nName: X\n#\n1 2 3\tUntitled\n4 5 6\tUntitled\n".toList := by
  refine ⟨?_, by decide⟩
  intro p
  simp only [Palette.save, if_true, Palette.saveText, foldl_writeColor]
  simp [Nat.repr, List.asString, List.append_assoc]

/-- C7: `save` changes nothing but the modified flag: when the file is opened it returns true
and clears the flag, when the file cannot be opened it returns false and the palette is as
before; name, file name and colours are the same in both cases. -/
theorem save_only_clears_modified (p : Palette) :
    (Palette.save p true).ok = true ∧
      (Palette.save p true).palette = { p with modified_ := false } ∧
      (Palette.save p true).palette.isModified = false ∧
      (Palette.save p false).ok = false ∧
      (Palette.save p false).palette = p := by
  simp [Palette.save, Palette.isModified]

/-- C8: for every palette, the empty one included and whatever its flag was before, the
palette is modified after `insertColor`, after `appendColor` and after `removeColor`, and for
an index `0 ≤ i < count()` the call of `setColor` is defined and the palette is modified
after it. -/
theorem mutators_set_modified (p : Palette) (c : QColor) (i j : Int) :
    (0 ≤ i → i < p.count → ∃ q, p.setColor i c = some q ∧ q.isModified = true) ∧
      (p.insertColor j c).isModified = true ∧
      (p.appendColor c).isModified = true ∧
      (p.removeColor j).isModified = true := by
  refine ⟨?_, rfl, rfl, rfl⟩
  intro h0 h1
  have hv : 0 ≤ i ∧ i < (p.colors_.length : Int) := ⟨h0, h1⟩
  simp [Palette.setColor, QList.assign, hv, Palette.isModified]

/-- Witness for C8: the example palette, which is not modified, with `setColor` at the index
1, and the empty palette named `A`, which is not modified either, with `insertColor` at 0
and `appendColor`. -/
theorem mutators_set_modified_witness :
    ((0 : Int) ≤ 1 ∧ (1 : Int) < examplePalette.count) ∧
      ((∃ q, examplePalette.setColor 1 (QColor.rgb 4 5 6) = some q ∧ q.isModified = true) ∧
        (examplePalette.insertColor 3 (QColor.rgb 4 5 6)).isModified = true ∧
        (examplePalette.appendColor (QColor.rgb 4 5 6)).isModified = true ∧
        (examplePalette.removeColor 3).isModified = true) ∧
      (Palette.new "A".toList []).isModified = false ∧
      ((Palette.new "A".toList []).insertColor 0 (QColor.rgb 4 5 6)).isModified = true ∧
      ((Palette.new "A".toList []).appendColor (QColor.rgb 4 5 6)).isModified = true :=
  ⟨⟨by decide, by decide⟩,
    ⟨(mutators_set_modified examplePalette (QColor.rgb 4 5 6) 1 3).1 (by decide) (by decide),
      (mutators_set_modified examplePalette (QColor.rgb 4 5 6) 1 3).2⟩,
    by decide,
    (mutators_set_modified (Palette.new "A".toList []) (QColor.rgb 4 5 6) 0 0).2.1,
    (mutators_set_modified (Palette.new "A".toList []) (QColor.rgb 4 5 6) 0 0).2.2.1⟩

/-- C9: the code of `setName` leaves the modified flag as it was, so a palette that was not
modified is still not modified after `setName`; for instance the palette constructed with
the name `A` and renamed to `B`. -/
theorem setName_keeps_modified :
    (∀ (p : Palette) (n : QString), (p.setName n).isModified = p.isModified) ∧
      ((Palette.new "A".toList []).setName "B".toList).isModified = false := by
  exact ⟨fun _ _ => rfl, by decide⟩

/-- C10: after `setName(n)` the name is `n`, the file name is `n` followed by `.gpl`, and
the colours are the same. -/
theorem setName_name_filename (p : Palette) (n : QString) :
    (p.setName n).name = n ∧ (p.setName n).filename = n ++ ".gpl".toList ∧
      (p.setName n).colors_ = p.colors_ ∧ (p.setName n).count = p.count := by
  simp [Palette.setName, Palette.name, Palette.filename, Palette.count]

/-! ### Positions in a list -/

theorem at_natCast {α : Type} (l : List α) (n : Nat) : QList.at l (n : Int) = l[n]? := by
  unfold QList.at
  rw [if_pos (Int.natCast_nonneg n), Int.toNat_natCast, List.get?_eq_getElem?]

theorem insert_natCast {α : Type} (l : List α) (n : Nat) (x : α) (h : n ≤ l.length) :
    QList.insert l (n : Int) x = l.insertIdx n x := by
  unfold QList.insert
  by_cases h0 : (n : Int) ≤ 0
  · have hn : n = 0 := by omega
    subst hn
    rw [if_pos h0]
    rfl
  · rw [if_neg h0]
    by_cases h1 : (l.length : Int) ≤ (n : Int)
    · have hn : n = l.length := by omega
      rw [if_pos h1, hn, List.insertIdx_length_self]
    · rw [if_neg h1, Int.toNat_natCast]

theorem getElem?_insertIdx_cases {α : Type} (x : α) (l : List α) (n k : Nat) (h : n ≤ l.length) :
    (l.insertIdx n x)[k]? =
      if k < n then l[k]? else if k = n then some x else l[k - 1]? := by
  induction l generalizing n k with
  | nil =>
    have hn : n = 0 := by simpa using h
    subst hn
    cases k with
    | zero => simp
    | succ k => simp
  | cons a as ih =>
    cases n with
    | zero =>
      cases k with
      | zero => simp
      | succ k => simp
    | succ n =>
      rw [List.insertIdx_succ_cons]
      cases k with
      | zero => simp
      | succ k =>
        have h1 : n ≤ as.length := by simpa using h
        simp only [List.getElem?_cons_succ, ih n k h1, Nat.add_lt_add_iff_right,
          Nat.add_right_cancel_iff, Nat.add_sub_cancel]
        by_cases hk : k < n
        · simp [hk]
        · by_cases hkn : k = n
          · simp [hkn]
          · have hpos : 0 < k := by omega
            obtain ⟨k1, rfl⟩ : ∃ k1, k = k1 + 1 := ⟨k - 1, by omega⟩
            simp [hk, hkn]

theorem removeAt_natCast {α : Type} (l : List α) (n : Nat) (h : n < l.length) :
    QList.removeAt l (n : Int) = l.eraseIdx n := by
  unfold QList.removeAt
  have hv : 0 ≤ (n : Int) ∧ (n : Int) < (l.length : Int) := ⟨Int.natCast_nonneg n, by omega⟩
  rw [if_pos hv, Int.toNat_natCast]

theorem assign_natCast {α : Type} (l : List α) (n : Nat) (x : α) (h : n < l.length) :
    QList.assign l (n : Int) x = some (l.set n x) := by
  unfold QList.assign
  have hv : 0 ≤ (n : Int) ∧ (n : Int) < (l.length : Int) := ⟨Int.natCast_nonneg n, by omega⟩
  rw [if_pos hv, Int.toNat_natCast]
/-- C11: for every palette, the empty one included, and `0 ≤ i ≤ count()`, after
`insertColor(i, c)` the count is one more and `color(i)` is `c`; the colour at every `j`
with `0 ≤ j < i` is where it was, and the colour that was at `j` with `i ≤ j < count()` is at
`j + 1`. -/
theorem insertColor_shifts (p : Palette) (c : QColor) (i j : Int)
    (hi0 : 0 ≤ i) (hi1 : i ≤ p.count) :
    (p.insertColor i c).count = p.count + 1 ∧
      (p.insertColor i c).color i = some c ∧
      (0 ≤ j → j < i →
        ∃ x, p.color j = some x ∧ (p.insertColor i c).color j = some x) ∧
      (i ≤ j → j < p.count →
        ∃ x, p.color j = some x ∧ (p.insertColor i c).color (j + 1) = some x) := by
  lift i to ℕ using hi0 with n
  have hn : n ≤ p.colors_.length := by
    have := hi1
    unfold Palette.count at this
    omega
  refine ⟨?_, ?_, ?_, ?_⟩
  · simp only [Palette.insertColor, Palette.count, insert_natCast _ _ _ hn]
    rw [List.length_insertIdx _ _ hn]
    omega
  · simp only [Palette.insertColor, Palette.color, insert_natCast _ _ _ hn, at_natCast,
      getElem?_insertIdx_cases c p.colors_ n _ hn]
    simp
  · intro hj0 hj1
    lift j to ℕ using hj0 with m
    have h1 : m < n := by omega
    have hm : m < p.colors_.length := by omega
    refine ⟨p.colors_[m], ?_, ?_⟩
    · simp only [Palette.color, at_natCast]
      exact List.getElem?_eq_getElem hm
    · simp only [Palette.insertColor, Palette.color, insert_natCast _ _ _ hn, at_natCast,
        getElem?_insertIdx_cases c p.colors_ n _ hn]
      rw [if_pos h1, List.getElem?_eq_getElem hm]
  · intro hj0 hj1
    have hnonneg : 0 ≤ j := by omega
    lift j to ℕ using hnonneg with m
    have hm : m < p.colors_.length := by
      have := hj1
      unfold Palette.count at this
      omega
    have hm1 : ((m : Int) + 1) = ((m + 1 : Nat) : Int) := by omega
    have h1 : ¬ (m + 1 < n) := by omega
    have h2 : ¬ (m + 1 = n) := by omega
    refine ⟨p.colors_[m], ?_, ?_⟩
    · simp only [Palette.color, at_natCast]
      exact List.getElem?_eq_getElem hm
    · simp only [Palette.insertColor, Palette.color, insert_natCast _ _ _ hn, hm1, at_natCast,
        getElem?_insertIdx_cases c p.colors_ n _ hn]
      rw [if_neg h1, if_neg h2, Nat.add_sub_cancel, List.getElem?_eq_getElem hm]

/-- Witness for C11: a colour inserted at position 1 of the example palette, seen from the
positions 0 and 2, and a colour inserted at position 0 of the empty palette named `A`. -/
theorem insertColor_shifts_witness :
    ((0 : Int) ≤ 1 ∧ (1 : Int) ≤ examplePalette.count ∧ (0 : Int) ≤ 0 ∧ (0 : Int) < 1 ∧
      (1 : Int) ≤ 2 ∧ (2 : Int) < examplePalette.count) ∧
    ((examplePalette.insertColor 1 (QColor.rgb 4 5 6)).count = examplePalette.count + 1 ∧
      (examplePalette.insertColor 1 (QColor.rgb 4 5 6)).color 1 = some (QColor.rgb 4 5 6) ∧
      (∃ x, examplePalette.color 0 = some x ∧
        (examplePalette.insertColor 1 (QColor.rgb 4 5 6)).color 0 = some x) ∧
      (∃ x, examplePalette.color 2 = some x ∧
        (examplePalette.insertColor 1 (QColor.rgb 4 5 6)).color (2 + 1) = some x)) ∧
    ((0 : Int) ≤ 0 ∧ (0 : Int) ≤ (Palette.new "A".toList []).count) ∧
    (((Palette.new "A".toList []).insertColor 0 (QColor.rgb 4 5 6)).count =
        (Palette.new "A".toList []).count + 1 ∧
      ((Palette.new "A".toList []).insertColor 0 (QColor.rgb 4 5 6)).color 0 =
        some (QColor.rgb 4 5 6)) :=
  ⟨⟨by decide, by decide, by decide, by decide, by decide, by decide⟩,
    ⟨(insertColor_shifts examplePalette (QColor.rgb 4 5 6) 1 2 (by decide) (by decide)).1,
      (insertColor_shifts examplePalette (QColor.rgb 4 5 6) 1 2 (by decide) (by decide)).2.1,
      (insertColor_shifts examplePalette (QColor.rgb 4 5 6) 1 0 (by decide)
        (by decide)).2.2.1 (by decide) (by decide),
      (insertColor_shifts examplePalette (QColor.rgb 4 5 6) 1 2 (by decide)
        (by decide)).2.2.2 (by decide) (by decide)⟩,
    ⟨by decide, by decide⟩,
    ⟨(insertColor_shifts (Palette.new "A".toList []) (QColor.rgb 4 5 6) 0 0 (by decide)
        (by decide)).1,
      (insertColor_shifts (Palette.new "A".toList []) (QColor.rgb 4 5 6) 0 0 (by decide)
        (by decide)).2.1⟩⟩

/-- C12: for `0 ≤ i < count()`, after `removeColor(i)` the count is one less, the colours
before `i` are where they were and the colour that was at `j > i` is at `j - 1`. -/
theorem removeColor_shifts (p : Palette) (i j : Int)
    (hi0 : 0 ≤ i) (hi1 : i < p.count) (hj0 : 0 ≤ j) (hj1 : j < p.count) :
    (p.removeColor i).count = p.count - 1 ∧
      (∃ x, p.color j = some x ∧
        (i < j → (p.removeColor i).color (j - 1) = some x) ∧
        (j < i → (p.removeColor i).color j = some x)) := by
  lift i to ℕ using hi0 with n
  lift j to ℕ using hj0 with m
  have hn : n < p.colors_.length := by
    have := hi1
    unfold Palette.count at this
    omega
  have hm : m < p.colors_.length := by
    have := hj1
    unfold Palette.count at this
    omega
  simp only [Palette.removeColor, Palette.count, Palette.color, removeAt_natCast _ _ hn,
    at_natCast]
  refine ⟨?_, p.colors_[m], List.getElem?_eq_getElem hm, ?_, ?_⟩
  · rw [List.length_eraseIdx_of_lt hn]
    omega
  · intro h
    have h1 : n < m := by omega
    have hm1 : ((m : Int) - 1) = ((m - 1 : Nat) : Int) := by omega
    rw [hm1, at_natCast, List.getElem?_eraseIdx_of_ge _ _ _ (by omega)]
    have h2 : m - 1 + 1 = m := by omega
    rw [h2, List.getElem?_eq_getElem hm]
  · intro h
    have h1 : m < n := by omega
    rw [List.getElem?_eraseIdx_of_lt _ _ _ h1, List.getElem?_eq_getElem hm]

/-- Witness for C12: the colour at position 0 of the example palette removed, seen from the
position 2. -/
theorem removeColor_shifts_witness :
    ((0 : Int) ≤ 0 ∧ (0 : Int) < examplePalette.count ∧ (0 : Int) ≤ 2 ∧
      (2 : Int) < examplePalette.count) ∧
    ((examplePalette.removeColor 0).count = examplePalette.count - 1 ∧
      (∃ x, examplePalette.color 2 = some x ∧
        ((0 : Int) < 2 → (examplePalette.removeColor 0).color (2 - 1) = some x) ∧
        ((2 : Int) < 0 → (examplePalette.removeColor 0).color 2 = some x))) :=
  ⟨⟨by decide, by decide, by decide, by decide⟩,
    removeColor_shifts examplePalette 0 2 (by decide) (by decide) (by decide) (by decide)⟩
/-- C13: for `0 ≤ i < count()`, `setColor(i, c)` is defined, and after it `color(i)` is `c`
and the count is the same. -/
theorem setColor_replaces (p : Palette) (c : QColor) (i : Int)
    (hi0 : 0 ≤ i) (hi1 : i < p.count) :
    ∃ q, p.setColor i c = some q ∧ q.color i = some c ∧ q.count = p.count := by
  lift i to ℕ using hi0 with n
  have hn : n < p.colors_.length := by
    have := hi1
    unfold Palette.count at this
    omega
  refine ⟨{ p with colors_ := p.colors_.set n c, modified_ := true }, ?_, ?_, ?_⟩
  · unfold Palette.setColor
    rw [assign_natCast _ _ _ hn]
  · simp only [Palette.color, at_natCast]
    rw [List.getElem?_set_self hn]
  · simp only [Palette.count, List.length_set]

/-- Witness for C13: the colour at position 1 of the example palette replaced. -/
theorem setColor_replaces_witness :
    ((0 : Int) ≤ 1 ∧ (1 : Int) < examplePalette.count) ∧
    ∃ q, examplePalette.setColor 1 (QColor.rgb 4 5 6) = some q ∧
      q.color 1 = some (QColor.rgb 4 5 6) ∧ q.count = examplePalette.count :=
  ⟨⟨by decide, by decide⟩,
    setColor_replaces examplePalette (QColor.rgb 4 5 6) 1 (by decide) (by decide)⟩
/-- C14: the constructed palette has the given name, no colour and is not modified; its file
name is the given file name when that is not empty, and the name followed by `.gpl` when the
file name is empty, which is what an omitted file name is. -/
theorem new_fields (name filename : QString) (c : Char) :
    (Palette.new name filename).name = name ∧
      (Palette.new name filename).colors_ = [] ∧
      (Palette.new name filename).count = 0 ∧
      (Palette.new name filename).isModified = false ∧
      (Palette.new name (c :: filename)).filename = c :: filename ∧
      (Palette.new name []).filename = name ++ ".gpl".toList := by
  refine ⟨rfl, rfl, rfl, rfl, rfl, rfl⟩
/-! ### The loops of the default palette -/

theorem valueLoop_eq (fromHsv : Int → Int → Int → QColor) (hue : Int) (pal : Palette) :
    Palette.valueLoop fromHsv hue 256 255 pal =
      { pal with
        colors_ := pal.colors_ ++
          (List.range 16).map (fun (b : Nat) => fromHsv hue 255 (255 - 16 * (b : Int)))
        modified_ := true } := by
  simp [Palette.valueLoop, Palette.appendColor, List.range, List.range.loop]

theorem hueLoop_eq (fromHsv : Int → Int → Int → QColor) (m k fuel : Nat) (pal : Palette)
    (hk : k + m = 22) (hfuel : m < fuel) :
    Palette.hueLoop fromHsv fuel (16 * (k : Int)) pal =
      { pal with
        colors_ := pal.colors_ ++ (List.range' k m).flatMap (fun (a : Nat) =>
          (List.range 16).map
            (fun (b : Nat) => fromHsv (16 * (a : Int)) 255 (255 - 16 * (b : Int))))
        modified_ := pal.modified_ || decide (0 < m) } := by
  induction m generalizing k fuel pal with
  | zero =>
    obtain ⟨fuel, rfl⟩ : ∃ f, fuel = f + 1 := ⟨fuel - 1, by omega⟩
    have hstop : ¬ (16 * (k : Int) < 352) := by omega
    simp [Palette.hueLoop, hstop]
  | succ m ih =>
    obtain ⟨fuel, rfl⟩ : ∃ f, fuel = f + 1 := ⟨fuel - 1, by omega⟩
    have hgo : 16 * (k : Int) < 352 := by omega
    have hnext : 16 * (k : Int) + 16 = 16 * ((k + 1 : Nat) : Int) := by
      push_cast
      ring
    simp only [Palette.hueLoop, if_pos hgo]
    rw [hnext, ih (k + 1) fuel _ (by omega) (by omega), valueLoop_eq, List.range'_succ,
      List.flatMap_cons]
    simp [List.append_assoc]

theorem getElem?_blocks {α : Type} (g : Nat → Nat → α) (m n s a b : Nat)
    (ha : a < n) (hb : b < m) :
    ((List.range' s n).flatMap (fun x => (List.range m).map (g x)))[m * a + b]? =
      some (g (s + a) b) := by
  induction n generalizing s a with
  | zero => omega
  | succ n ih =>
    rw [List.range'_succ, List.flatMap_cons]
    cases a with
    | zero =>
      rw [List.getElem?_append_left (by simpa using hb)]
      simp [List.getElem?_range hb]
    | succ a =>
      have hlen : ((List.range m).map (g s)).length ≤ m * (a + 1) + b := by
        simp only [List.length_map, List.length_range]
        nlinarith
      rw [List.getElem?_append_right hlen]
      have hidx : m * (a + 1) + b - ((List.range m).map (g s)).length = m * a + b := by
        simp only [List.length_map, List.length_range]
        rw [Nat.mul_succ]
        omega
      rw [hidx, ih (s + 1) a (by omega)]
      congr 2
      omega

theorem length_blocks {α : Type} (g : Nat → Nat → α) (m n s : Nat) :
    ((List.range' s n).flatMap (fun x => (List.range m).map (g x))).length = m * n := by
  induction n generalizing s with
  | zero => simp
  | succ n ih =>
    rw [List.range'_succ, List.flatMap_cons, List.length_append, ih (s + 1)]
    simp only [List.length_map, List.length_range]
    rw [Nat.mul_succ]
    omega

theorem makeDefaultPalette_eq (fromHsv : Int → Int → Int → QColor) (defaultName : QString) :
    Palette.makeDefaultPalette fromHsv defaultName =
      { name_ := defaultName
        filename_ := defaultName ++ ".gpl".toList
        colors_ := (List.range' 0 22).flatMap (fun (a : Nat) =>
          (List.range 16).map
            (fun (b : Nat) => fromHsv (16 * (a : Int)) 255 (255 - 16 * (b : Int))))
        modified_ := true } := by
  unfold Palette.makeDefaultPalette
  have h := hueLoop_eq fromHsv 22 0 352 (Palette.new defaultName []) (by omega) (by omega)
  simp only [Nat.cast_zero, mul_zero] at h
  rw [h]
  simp [Palette.new]
/-- C15: the default palette has exactly 352 colours, laid out hue by hue: for `a < 22` and
`b < 16` the colour at `16 * a + b` is the colour that `QColor::fromHsv` gives for the hue
`16 * a`, the saturation 255 and the value `255 - 16 * b`; so the colours at 0, 15 and 16
are those of HSV(0,255,255), HSV(0,255,15) and HSV(16,255,255), and with the conversion of
Qt the first one is RGB(255,0,0). -/
theorem makeDefaultPalette_colors (fromHsv : Int → Int → Int → QColor) (defaultName : QString)
    (a b : Nat) (ha : a < 22) (hb : b < 16) :
    (Palette.makeDefaultPalette fromHsv defaultName).count = 352 ∧
      (Palette.makeDefaultPalette fromHsv defaultName).color (16 * (a : Int) + (b : Int)) =
        some (fromHsv (16 * (a : Int)) 255 (255 - 16 * (b : Int))) ∧
      (Palette.makeDefaultPalette fromHsv defaultName).color 0 = some (fromHsv 0 255 255) ∧
      (Palette.makeDefaultPalette fromHsv defaultName).color 15 = some (fromHsv 0 255 15) ∧
      (Palette.makeDefaultPalette fromHsv defaultName).color 16 = some (fromHsv 16 255 255) ∧
      (Palette.makeDefaultPalette fromHsv defaultName).color 352 = none ∧
      QColor.fromHsv 0 255 255 = QColor.rgb 255 0 0 ∧
      (Palette.makeDefaultPalette QColor.fromHsv defaultName).color 0 =
        some (QColor.rgb 255 0 0) := by
  have hcol : ∀ (f : Int → Int → Int → QColor) (x y : Nat), x < 22 → y < 16 →
      (Palette.makeDefaultPalette f defaultName).color (((16 * x + y : Nat)) : Int) =
        some (f (16 * (x : Int)) 255 (255 - 16 * (y : Int))) := by
    intro f x y hx hy
    rw [makeDefaultPalette_eq]
    simp only [Palette.color, at_natCast]
    rw [getElem?_blocks (fun (a b : Nat) => f (16 * (a : Int)) 255 (255 - 16 * (b : Int)))
      16 22 0 x y hx hy]
    simp
  have hfirst : QColor.fromHsv 0 255 255 = QColor.rgb 255 0 0 := by decide
  refine ⟨?_, ?_, ?_, ?_, ?_, ?_, hfirst, ?_⟩
  · rw [makeDefaultPalette_eq]
    simp only [Palette.count]
    rw [length_blocks
      (fun (a b : Nat) => fromHsv (16 * (a : Int)) 255 (255 - 16 * (b : Int))) 16 22 0]
    rfl
  · have h := hcol fromHsv a b ha hb
    have hidx : ((16 * a + b : Nat) : Int) = 16 * (a : Int) + (b : Int) := by push_cast; ring
    rw [hidx] at h
    exact h
  · exact hcol fromHsv 0 0 (by omega) (by omega)
  · exact hcol fromHsv 0 15 (by omega) (by omega)
  · exact hcol fromHsv 1 0 (by omega) (by omega)
  · rw [makeDefaultPalette_eq]
    have h352 : (352 : Int) = ((352 : Nat) : Int) := rfl
    simp only [Palette.color]
    rw [h352, at_natCast, List.getElem?_eq_none]
    rw [length_blocks
      (fun (a b : Nat) => fromHsv (16 * (a : Int)) 255 (255 - 16 * (b : Int))) 16 22 0]
  · rw [← hfirst]
    exact hcol QColor.fromHsv 0 0 (by omega) (by omega)

/-- Witness for C15: the colour at `16 * 1 + 2` of the default palette named `Default`, with
the conversion of Qt. -/
theorem makeDefaultPalette_colors_witness :
    ((1 : Nat) < 22 ∧ (2 : Nat) < 16) ∧
    ((Palette.makeDefaultPalette QColor.fromHsv "Default".toList).count = 352 ∧
      (Palette.makeDefaultPalette QColor.fromHsv "Default".toList).color
          (16 * ((1 : Nat) : Int) + ((2 : Nat) : Int)) =
        some (QColor.fromHsv (16 * ((1 : Nat) : Int)) 255 (255 - 16 * ((2 : Nat) : Int))) ∧
      (Palette.makeDefaultPalette QColor.fromHsv "Default".toList).color 0 =
        some (QColor.fromHsv 0 255 255) ∧
      (Palette.makeDefaultPalette QColor.fromHsv "Default".toList).color 15 =
        some (QColor.fromHsv 0 255 15) ∧
      (Palette.makeDefaultPalette QColor.fromHsv "Default".toList).color 16 =
        some (QColor.fromHsv 16 255 255) ∧
      (Palette.makeDefaultPalette QColor.fromHsv "Default".toList).color 352 = none ∧
      QColor.fromHsv 0 255 255 = QColor.rgb 255 0 0 ∧
      (Palette.makeDefaultPalette QColor.fromHsv "Default".toList).color 0 =
        some (QColor.rgb 255 0 0)) :=
  ⟨⟨by decide, by decide⟩,
    makeDefaultPalette_colors QColor.fromHsv "Default".toList 1 2 (by decide) (by decide)⟩
/-- C16: the default palette is modified, since it is filled with `appendColor` and the flag
is not cleared afterwards, and its file name is its name followed by `.gpl`. -/
theorem makeDefaultPalette_modified (fromHsv : Int → Int → Int → QColor)
    (defaultName : QString) :
    (Palette.makeDefaultPalette fromHsv defaultName).isModified = true ∧
      (Palette.makeDefaultPalette fromHsv defaultName).name = defaultName ∧
      (Palette.makeDefaultPalette fromHsv defaultName).filename =
        (Palette.makeDefaultPalette fromHsv defaultName).name ++ ".gpl".toList := by
  rw [makeDefaultPalette_eq]
  exact ⟨rfl, rfl, rfl⟩
/-! ### Trimming -/

theorem mem_trimmed (s : QString) (x : Char) (h : x ∈ QString.trimmed s) : x ∈ s := by
  unfold QString.trimmed at h
  rw [List.mem_reverse] at h
  have h1 := (List.dropWhile_sublist QChar.isSpace).subset h
  rw [List.mem_reverse] at h1
  exact (List.dropWhile_sublist QChar.isSpace).subset h1

theorem trimmed_last (s : QString) (c : Char) (h : (QString.trimmed s).getLast? = some c) :
    QChar.isSpace c = false := by
  unfold QString.trimmed at h
  rw [List.getLast?_reverse] at h
  have h1 := List.head?_dropWhile_not QChar.isSpace (s.dropWhile QChar.isSpace).reverse
  rw [h] at h1
  exact h1

theorem getLast?_of_suffix {l1 l2 : List Char} (hs : l1 <:+ l2) (c : Char)
    (h : l1.getLast? = some c) : l2.getLast? = some c := by
  obtain ⟨pre, rfl⟩ := hs
  rw [List.getLast?_append, h]
  rfl

theorem trimmed_head (s : QString) (c : Char) (h : (QString.trimmed s).head? = some c) :
    QChar.isSpace c = false := by
  unfold QString.trimmed at h
  rw [List.head?_reverse] at h
  have h1 := getLast?_of_suffix (List.dropWhile_suffix QChar.isSpace) c h
  rw [List.getLast?_reverse] at h1
  have h2 := List.head?_dropWhile_not QChar.isSpace s
  rw [h1] at h2
  exact h2

theorem trimmed_eq_nil_iff (s : QString) :
    QString.trimmed s = [] ↔ ∀ c ∈ s, QChar.isSpace c = true := by
  unfold QString.trimmed
  rw [List.reverse_eq_nil_iff, List.dropWhile_eq_nil_iff]
  constructor
  · intro h
    have hy : s.dropWhile QChar.isSpace = [] := by
      cases hd : s.dropWhile QChar.isSpace with
      | nil => rfl
      | cons a as =>
        have h1 := List.head?_dropWhile_not QChar.isSpace s
        rw [hd] at h1
        have h2 : QChar.isSpace a = true := h a (by rw [hd]; simp)
        simp only [List.head?_cons] at h1
        rw [h1] at h2
        cases h2
    exact List.dropWhile_eq_nil_iff.mp hy
  · intro h x hx
    rw [List.mem_reverse] at hx
    exact h x ((List.dropWhile_sublist QChar.isSpace).subset hx)

theorem trimmed_space_trimmed (s : QString) :
    QString.trimmed (' ' :: QString.trimmed s) = QString.trimmed s := by
  have hsp : QChar.isSpace ' ' = true := by decide
  have h1 : QString.trimmed (' ' :: QString.trimmed s) =
      QString.trimmed (QString.trimmed s) := by
    conv_lhs => unfold QString.trimmed
    rw [List.dropWhile_cons_of_pos hsp]
    rfl
  rw [h1]
  exact trimmed_eq_self _ (trimmed_head s) (trimmed_last s)

/-! ### Lines that give no colour -/

theorem filterMap_filter_of_none {α β : Type} (f : α → Option β) (keep : α → Bool)
    (h : ∀ x, keep x = false → f x = none) (l : List α) :
    (l.filter keep).filterMap f = l.filterMap f := by
  induction l with
  | nil => rfl
  | cons a as ih =>
    cases hk : keep a with
    | true => simp [List.filter_cons, hk, List.filterMap_cons, ih]
    | false => simp [List.filter_cons, hk, List.filterMap_cons, ih, h a hk]

theorem lineColor_of_short (line : QString) (h : (QString.split line).length < 3) :
    Palette.lineColor line = none := by
  unfold Palette.lineColor
  split
  · rfl
  · simp only [if_pos h]

theorem splitAux_length (l cur : QString) :
    (splitAux l cur).length ≤ (l.filter regexSpace).length + 1 := by
  induction l generalizing cur with
  | nil =>
    unfold splitAux
    split <;> simp
  | cons c cs ih =>
    unfold splitAux
    cases hc : regexSpace c with
    | true =>
      have h1 := ih []
      simp only [if_true, List.filter_cons, hc, List.length_cons]
      split
      · omega
      · simp only [List.length_cons]
        omega
    | false =>
      have h1 := ih (c :: cur)
      simp only [Bool.false_eq_true, if_false, List.filter_cons, hc]
      exact h1

theorem fromStream_parsed (s : QTextStream) (fileName : QString)
    (h1 : s.readLine.1 = "GIMP Palette".toList)
    (h2 : QString.startsWith s.readLine.2.readLine.1 "Name:".toList = true) :
    ∃ p, Palette.fromStream s fileName = some p ∧
      p.name_ = QString.trimmed (QString.mid s.readLine.2.readLine.1 5) ∧
      p.colors_ = ((textLines s.buf).drop 2).filterMap Palette.lineColor := by
  refine ⟨_, fromStream_eq_some s fileName h1 h2, ?_, ?_⟩
  · exact (readColors_name _ _ _ _).1
  · have hb1 : s.buf ≠ [] := by
      intro h0
      simp [QTextStream.readLine, h0] at h1
    have hb2 : s.readLine.2.buf ≠ [] := by
      intro h0
      have : s.readLine.2.readLine.1 = [] := readLine_atEnd _ (by simp [QTextStream.atEnd, h0])
      rw [this] at h2
      exact absurd h2 (by decide)
    have hl1 : textLines s.buf = s.readLine.1 :: textLines s.readLine.2.buf :=
      textLines_readLine s.buf hb1
    have hl2 : textLines s.readLine.2.buf =
        s.readLine.2.readLine.1 :: textLines s.readLine.2.readLine.2.buf :=
      textLines_readLine s.readLine.2.buf hb2
    rw [hl1, hl2]
    show (Palette.readColors _ _ _ 0).colors_ = _
    rw [readColors_colors _ _ _ _ (le_refl _) (by simp [Palette.new])]
    simp [Palette.new]
/-- C17, as amended: when the first two lines are valid, the name is taken from the second line
alone, and every later line that splits into fewer than three tokens adds no colour: the
colours are those of the later lines with all such lines removed. A line made of a key, one
space and at most one word, such as `Columns: 16` or a second `Name: Other`, is such a
line. -/
theorem header_lines_skipped (s : QTextStream) (fileName key word : QString)
    (h1 : s.readLine.1 = "GIMP Palette".toList)
    (h2 : QString.startsWith s.readLine.2.readLine.1 "Name:".toList = true)
    (hkey : ∀ c ∈ key, regexSpace c = false) (hword : ∀ c ∈ word, regexSpace c = false) :
    ∃ p, Palette.fromStream s fileName = some p ∧
      p.name = QString.trimmed (QString.mid s.readLine.2.readLine.1 5) ∧
      p.colors_ = (((textLines s.buf).drop 2).filter
        (fun line => decide (3 ≤ (QString.split line).length))).filterMap Palette.lineColor ∧
      (QString.split (key ++ ' ' :: word)).length < 3 ∧
      Palette.lineColor (key ++ ' ' :: word) = none := by
  obtain ⟨p, hp, hname, hcolors⟩ := fromStream_parsed s fileName h1 h2
  have hlen : (QString.split (key ++ ' ' :: word)).length < 3 := by
    have h := splitAux_length (key ++ ' ' :: word) []
    have hk : key.filter regexSpace = [] := List.filter_eq_nil_iff.mpr (fun c hc => by
      rw [hkey c hc]
      decide)
    have hw : word.filter regexSpace = [] := List.filter_eq_nil_iff.mpr (fun c hc => by
      rw [hword c hc]
      decide)
    have hsp : regexSpace ' ' = true := by decide
    rw [List.filter_append, List.filter_cons, hk, hw, if_pos hsp] at h
    unfold QString.split
    simp only [List.length_nil, List.length_append, List.length_cons] at h
    omega
  refine ⟨p, hp, hname, ?_, hlen, lineColor_of_short _ hlen⟩
  rw [hcolors]
  exact (filterMap_filter_of_none Palette.lineColor _ (fun line hl =>
    lineColor_of_short line (by simpa using hl)) _).symm

/-- Witness for C17, as amended: a file with the later lines `Columns: 16`, `Name: Other` and
`1 2 3`, and the line `Name: Other`. -/
theorem header_lines_skipped_witness :
    ((QTextStream.ofTextDevice
          "GIMP Palette\nName: Test\nColumns: 16\nName: Other\n1 2 3\n".toList).readLine.1 =
        "GIMP Palette".toList ∧
      QString.startsWith
        (QTextStream.readLine (QTextStream.readLine (QTextStream.ofTextDevice
          "GIMP Palette\nName: Test\nColumns: 16\nName: Other\n1 2 3\n".toList)).2).1
        "Name:".toList = true ∧
      (∀ c ∈ "Name:".toList, regexSpace c = false) ∧
      (∀ c ∈ "Other".toList, regexSpace c = false)) ∧
    ∃ p, Palette.fromStream
        (QTextStream.ofTextDevice
          "GIMP Palette\nName: Test\nColumns: 16\nName: Other\n1 2 3\n".toList)
        "test.gpl".toList = some p ∧
      p.name = QString.trimmed (QString.mid
        (QTextStream.readLine (QTextStream.readLine (QTextStream.ofTextDevice
          "GIMP Palette\nName: Test\nColumns: 16\nName: Other\n1 2 3\n".toList)).2).1
        5) ∧
      p.colors_ = ((List.drop 2 (textLines (QTextStream.ofTextDevice
          "GIMP Palette\nName: Test\nColumns: 16\nName: Other\n1 2 3\n".toList).buf)).filter
        (fun line => decide (3 ≤ (QString.split line).length))).filterMap Palette.lineColor ∧
      (QString.split ("Name:".toList ++ ' ' :: "Other".toList)).length < 3 ∧
      Palette.lineColor ("Name:".toList ++ ' ' :: "Other".toList) = none :=
  ⟨⟨by decide, by decide, by decide, by decide⟩,
    header_lines_skipped
      (QTextStream.ofTextDevice
        "GIMP Palette\nName: Test\nColumns: 16\nName: Other\n1 2 3\n".toList)
      "test.gpl".toList "Name:".toList "Other".toList (by decide) (by decide) (by decide)
      (by decide)⟩

/-- C17 fails for a second name line whose name has two words: the later line
`Name: My Colors` splits into three tokens and is read as a colour line, so that the palette
gets the colour (0,0,0), which the same file without that line does not have; the name is
still the one of the second line. -/
theorem duplicate_name_counterexample :
    (Palette.fromStream
        (QTextStream.ofTextDevice "GIMP Palette\nName: Test\nName: My Colors\n".toList)
        "test.gpl".toList).map (fun p => (p.name, p.colors_)) =
        some ("Test".toList, [QColor.rgb 0 0 0]) ∧
      (Palette.fromStream (QTextStream.ofTextDevice "GIMP Palette\nName: Test\n".toList)
        "test.gpl".toList).map (fun p => (p.name, p.colors_)) = some ("Test".toList, []) ∧
      QString.split "Name: My Colors".toList =
        ["Name:".toList, "My".toList, "Colors".toList] := by
  decide
/-- C19, as amended: when the reading succeeds, the name of the palette is the trimmed text
after `Name:` of the second line, and it is not empty exactly when that text has a character
that is not whitespace. -/
theorem name_nonempty_iff (s : QTextStream) (fileName : QString) (p : Palette)
    (h : Palette.fromStream s fileName = some p) :
    p.name = QString.trimmed (QString.mid s.readLine.2.readLine.1 5) ∧
      (p.name ≠ [] ↔ ∃ c ∈ QString.mid s.readLine.2.readLine.1 5, QChar.isSpace c = false) := by
  obtain ⟨-, -, hp⟩ := fromStream_some s fileName p h
  have hname : p.name = QString.trimmed (QString.mid s.readLine.2.readLine.1 5) := by
    rw [hp]
    exact (readColors_name _ _ _ _).1
  refine ⟨hname, ?_⟩
  rw [hname, Ne, trimmed_eq_nil_iff]
  constructor
  · intro hne
    by_contra hall
    apply hne
    intro c hc
    cases hsp : QChar.isSpace c with
    | true => rfl
    | false => exact absurd ⟨c, hc, hsp⟩ hall
  · rintro ⟨c, hc, hsp⟩ hall
    rw [hall c hc] at hsp
    cases hsp

/-- Witness for C19, as amended: the example file, whose second line is `Name: Test`. -/
theorem name_nonempty_iff_witness :
    Palette.fromStream (QTextStream.ofTextDevice exampleText) "test.gpl".toList =
        some examplePalette ∧
      (examplePalette.name =
          QString.trimmed (QString.mid
            (QTextStream.ofTextDevice exampleText).readLine.2.readLine.1 5) ∧
        (examplePalette.name ≠ [] ↔
          ∃ c ∈ QString.mid (QTextStream.ofTextDevice exampleText).readLine.2.readLine.1 5,
            QChar.isSpace c = false)) :=
  ⟨by decide,
    name_nonempty_iff (QTextStream.ofTextDevice exampleText) "test.gpl".toList examplePalette
      (by decide)⟩

/-- C19 fails when nothing but whitespace follows `Name:`: the files whose second line is
`Name:` alone, or `Name:` followed by spaces and a TAB, are read successfully and give a
palette whose name is the empty string. -/
theorem empty_name_counterexample :
    (Palette.fromStream (QTextStream.ofTextDevice "GIMP Palette\nName:\n1 2 3\n".toList)
        "test.gpl".toList).map (fun p => (p.name, p.colors_)) =
        some ([], [QColor.rgb 1 2 3]) ∧
      (Palette.fromStream (QTextStream.ofTextDevice "GIMP Palette\nName:  \t \n".toList)
        "test.gpl".toList).map Palette.name = some [] := by
  decide
/-! ### Reading back what `save` writes for any palette -/

theorem saveText_general (p : Palette) :
    Palette.saveText p =
      "GIMP Palette".toList ++ '\n' :: (("Name: ".toList ++ p.name_) ++ '\n' :: ("#".toList ++
        '\n' :: (p.colors_.map (fun c => writtenLine c ++ ['\n'])).flatten)) := by
  unfold Palette.saveText
  rw [foldl_writeColor, written_body]
  simp [List.append_assoc]

theorem fromStream_saveText (p : Palette) (fileName : QString)
    (hnl : ∀ c ∈ p.name_, c ≠ '\n') (hcr : ∀ c ∈ p.name_, c ≠ '\r')
    (htrim : QString.trimmed (' ' :: p.name_) = p.name_)
    (hcs : ∀ c ∈ p.colors_, c.red ≤ 255 ∧ c.green ≤ 255 ∧ c.blue ≤ 255) :
    ∃ q, Palette.fromStream (QTextStream.ofTextDevice (Palette.saveText p)) fileName = some q ∧
      q.name_ = p.name_ ∧
      q.colors_ = p.colors_.map
        (fun c => { valid := true, red := c.red, green := c.green, blue := c.blue }) := by
  have hlit1 : ∀ x ∈ "GIMP Palette".toList, x ≠ '\n' ∧ x ≠ '\r' := by decide
  have hlit2 : ∀ x ∈ "Name: ".toList, x ≠ '\n' ∧ x ≠ '\r' := by decide
  have hlit3 : ∀ x ∈ "#".toList, x ≠ '\n' ∧ x ≠ '\r' := by decide
  have hline2 : ∀ x ∈ "Name: ".toList ++ p.name_, x ≠ '\n' := by
    intro x hx
    rcases List.mem_append.mp hx with h | h
    · exact (hlit2 x h).1
    · exact hnl x h
  obtain ⟨body, hbody⟩ :
      ∃ body, body = (p.colors_.map (fun c => writtenLine c ++ ['\n'])).flatten := ⟨_, rfl⟩
  have htext : Palette.saveText p =
      "GIMP Palette".toList ++ '\n' :: (("Name: ".toList ++ p.name_) ++ '\n' :: ("#".toList ++
        '\n' :: body)) := by
    rw [hbody]
    exact saveText_general p
  have hnocr : ∀ x ∈ Palette.saveText p, x ≠ '\r' := by
    intro x hx
    rw [htext] at hx
    simp only [List.mem_append, List.mem_cons] at hx
    rcases hx with h | h | (h | h) | h | h | h | h
    · exact (hlit1 x h).2
    · rw [h]; decide
    · exact (hlit2 x h).2
    · exact hcr x h
    · rw [h]; decide
    · exact (hlit3 x h).2
    · rw [h]; decide
    · rw [hbody] at h
      exact written_body_no_cr p.colors_ x h
  have hstream : QTextStream.ofTextDevice (Palette.saveText p) =
      { buf := "GIMP Palette".toList ++ '\n' :: (("Name: ".toList ++ p.name_) ++ '\n' ::
        ("#".toList ++ '\n' :: body)) } := by
    unfold QTextStream.ofTextDevice
    rw [List.filter_eq_self.mpr (fun x hx => by simpa using hnocr x hx), htext]
  have hr1 := readLine_append "GIMP Palette".toList
    (("Name: ".toList ++ p.name_) ++ '\n' :: ("#".toList ++ '\n' :: body))
    (fun x hx => (hlit1 x hx).1)
  have hr2 := readLine_append ("Name: ".toList ++ p.name_) ("#".toList ++ '\n' :: body) hline2
  have h1 : (QTextStream.ofTextDevice (Palette.saveText p)).readLine.1 =
      "GIMP Palette".toList := by
    rw [hstream, hr1]
  have hs1 : (QTextStream.ofTextDevice (Palette.saveText p)).readLine.2 =
      { buf := ("Name: ".toList ++ p.name_) ++ '\n' :: ("#".toList ++ '\n' :: body) } := by
    rw [hstream, hr1]
  have hl2 : (QTextStream.ofTextDevice (Palette.saveText p)).readLine.2.readLine.1 =
      "Name: ".toList ++ p.name_ := by
    rw [hs1, hr2]
  have hs2 : (QTextStream.ofTextDevice (Palette.saveText p)).readLine.2.readLine.2 =
      { buf := "#".toList ++ '\n' :: body } := by
    rw [hs1, hr2]
  have h2 : QString.startsWith
      (QTextStream.ofTextDevice (Palette.saveText p)).readLine.2.readLine.1
      "Name:".toList = true := by
    rw [hl2]
    rfl
  have hres := fromStream_eq_some (QTextStream.ofTextDevice (Palette.saveText p)) fileName h1 h2
  rw [hs2, hl2] at hres
  refine ⟨_, hres, ?_, ?_⟩
  · show (Palette.readColors _ _ _ 0).name_ = _
    rw [(readColors_name _ _ _ _).1]
    exact htrim
  · show (Palette.readColors _ _ _ 0).colors_ = _
    rw [readColors_colors _ _ _ _ (le_refl _) (by simp [Palette.new])]
    rw [textLines_append _ _ (fun x hx => (hlit3 x hx).1), List.filterMap_cons]
    have hcomment : Palette.lineColor "#".toList = none := by decide
    rw [hcomment, hbody, written_body_lines p.colors_ hcs]
    rfl

theorem rgb_bounds (r g b : Int) :
    (QColor.rgb r g b).red ≤ 255 ∧ (QColor.rgb r g b).green ≤ 255 ∧
      (QColor.rgb r g b).blue ≤ 255 := by
  unfold QColor.rgb
  split
  · simp only
    omega
  · simp [QColor.invalid]

theorem lineColor_bounds (line : QString) (c : QColor) (h : Palette.lineColor line = some c) :
    c.red ≤ 255 ∧ c.green ≤ 255 ∧ c.blue ≤ 255 := by
  unfold Palette.lineColor at h
  split at h
  · cases h
  · dsimp only at h
    split at h
    · cases h
    · rw [← Option.some.inj h]
      exact rgb_bounds _ _ _

theorem mem_readLine (s : QTextStream) (x : Char) (h : x ∈ s.readLine.1) :
    x ≠ '\n' ∧ x ∈ s.buf := by
  unfold QTextStream.readLine at h
  constructor
  · have := List.mem_takeWhile_imp h
    simpa using this
  · exact (List.takeWhile_sublist _).subset h

theorem mem_readLine_rest (s : QTextStream) (x : Char) (h : x ∈ s.readLine.2.buf) :
    x ∈ s.buf := by
  unfold QTextStream.readLine at h
  exact (List.dropWhile_sublist _).subset (List.mem_of_mem_drop h)
/-- C20: reading normalises. When a file is read successfully into a palette, the text that
`save` writes for that palette is read successfully again, and gives the same name and the
same sequence of (red, green, blue) triples. -/
theorem save_fromStream_normalises (content fileName fileName2 : QString) (p : Palette)
    (h : Palette.fromStream (QTextStream.ofTextDevice content) fileName = some p) :
    ∃ text q, (Palette.save p true).written = some text ∧
      Palette.fromStream (QTextStream.ofTextDevice text) fileName2 = some q ∧
      q.name = p.name ∧
      q.colors_.map QColor.triple = p.colors_.map QColor.triple := by
  obtain ⟨h1, h2, -⟩ := fromStream_some _ _ _ h
  obtain ⟨p1, hp1, hname, hcolors⟩ :=
    fromStream_parsed (QTextStream.ofTextDevice content) fileName h1 h2
  have hpp : p1 = p := Option.some.inj (hp1.symm.trans h)
  subst hpp
  have hmem : ∀ x ∈ p1.name_, x ≠ '\n' ∧ x ≠ '\r' := by
    intro x hx
    rw [hname] at hx
    have hx1 : x ∈ (QTextStream.ofTextDevice content).readLine.2.readLine.1 :=
      List.mem_of_mem_drop (mem_trimmed _ x hx)
    obtain ⟨hnl, hx2⟩ := mem_readLine _ x hx1
    have hx3 := mem_readLine_rest _ x hx2
    unfold QTextStream.ofTextDevice at hx3
    have hx4 := (List.mem_filter.mp hx3).2
    exact ⟨hnl, by simpa using hx4⟩
  have htrim : QString.trimmed (' ' :: p1.name_) = p1.name_ := by
    rw [hname]
    exact trimmed_space_trimmed _
  have hcs : ∀ c ∈ p1.colors_, c.red ≤ 255 ∧ c.green ≤ 255 ∧ c.blue ≤ 255 := by
    intro c hc
    rw [hcolors, List.mem_filterMap] at hc
    obtain ⟨line, -, hline⟩ := hc
    exact lineColor_bounds line c hline
  obtain ⟨q, hq, hqn, hqc⟩ := fromStream_saveText p1 fileName2 (fun x hx => (hmem x hx).1)
    (fun x hx => (hmem x hx).2) htrim hcs
  refine ⟨Palette.saveText p1, q, rfl, hq, hqn, ?_⟩
  rw [hqc, List.map_map]
  rfl

/-- Witness for C20: a file with spaces around the name, a colour line with a value out of
range and extra tokens, a comment and a plain colour line. -/
theorem save_fromStream_normalises_witness :
    Palette.fromStream
        (QTextStream.ofTextDevice
          "GIMP Palette\nName:  My Colors  \n10 20 300 junk extra\n# c\n1 2 3\n".toList)
        "my.gpl".toList =
        some { name_ := "My Colors".toList, filename_ := "my.gpl".toList,
               colors_ := [QColor.invalid, QColor.rgb 1 2 3], modified_ := false } ∧
    ∃ text q,
      (Palette.save
          { name_ := "My Colors".toList, filename_ := "my.gpl".toList,
            colors_ := [QColor.invalid, QColor.rgb 1 2 3], modified_ := false } true).written =
        some text ∧
      Palette.fromStream (QTextStream.ofTextDevice text) "copy.gpl".toList = some q ∧
      q.name = Palette.name
        { name_ := "My Colors".toList, filename_ := "my.gpl".toList,
          colors_ := [QColor.invalid, QColor.rgb 1 2 3], modified_ := false } ∧
      q.colors_.map QColor.triple = List.map QColor.triple
        (Palette.colors_
          { name_ := "My Colors".toList, filename_ := "my.gpl".toList,
            colors_ := [QColor.invalid, QColor.rgb 1 2 3], modified_ := false }) :=
  ⟨by decide,
    save_fromStream_normalises
      "GIMP Palette\nName:  My Colors  \n10 20 300 junk extra\n# c\n1 2 3\n".toList
      "my.gpl".toList "copy.gpl".toList
      { name_ := "My Colors".toList, filename_ := "my.gpl".toList,
        colors_ := [QColor.invalid, QColor.rgb 1 2 3], modified_ := false } (by decide)⟩

end Drawpile
